import Mathlib

/-
Verification development for the Canvas-to-Reminders sync tool (`src/main.py`).

The reconciliation and caching engine of `main.py` is shallowly embedded here:

* Python `str` values are modelled as `List Char` (sequences of code points);
  `<` on Python strings is code-point lexicographic comparison (`strLt`).
* `datetime` values produced by `datetime.strptime(due_at, "%Y-%m-%dT%H:%M:%SZ")`
  are modelled as a record of calendar fields (`DateTime`); `strptime` itself is
  modelled by `parseDueAt`, field by field, with CPython's leniency: leading
  zeros optional for the two-digit directives, literals matched
  case-insensitively, and the `datetime` constructor's range validation
  (`matchesFormat` names the canonical zero-padded rendering, on which
  code-point order is chronological order).
* External collaborators (the `ollama` model call, `osascript`, and the
  local-timezone `strftime` renderings) are parameters of the run (`Collab`);
  the AppleScript reminder calls are recorded as an event trace.
* `list.sort` (a stable sort by key) is modelled by a stable insertion sort:
  for a total preorder on keys the stable sorted permutation is unique, so any
  stable sort is an exact model of Python's.
* The per-assignment loop body, the per-course loop, and the whole run become
  `processAssignment`, `processCourse` and `runSync`, folding over the course
  data returned by the remote source with an explicit `SyncState`.
-/

/-! ### Python strings -/

/-- A Python string: a sequence of code points. -/
abbrev Str := List Char

/-- The six characters Python's `str.strip()` removes. -/
def pyIsSpace (c : Char) : Bool :=
  c = ' ' || c = '\t' || c = '\n' || c = '\x0d' || c = '\x0b' || c = '\x0c'

/-- Python `str.strip()`: drop whitespace from both ends. -/
def pyStrip (s : Str) : Str :=
  ((s.dropWhile pyIsSpace).reverse.dropWhile pyIsSpace).reverse

/-- Helper for `pyWords`: scan the string, keeping the current partial word
reversed in `cur`; close the word at whitespace or at the end. -/
def pyWordsAux (cur : Str) : Str → List Str
  | [] => if cur.isEmpty then [] else [cur.reverse]
  | c :: s =>
    if pyIsSpace c then
      if cur.isEmpty then pyWordsAux [] s else cur.reverse :: pyWordsAux [] s
    else pyWordsAux (c :: cur) s

/-- Python `str.split()` with no separator: whitespace-delimited words, no empties. -/
def pyWords (s : Str) : List Str := pyWordsAux [] s

/-- Python `" ".join(ws)`. -/
def joinSpace : List Str → Str
  | [] => []
  | [w] => w
  | w :: ws => w ++ ' ' :: joinSpace ws

/-- Python `"|".join(ws)`. -/
def joinBar : List Str → Str
  | [] => []
  | [w] => w
  | w :: ws => w ++ '|' :: joinBar ws

/-- Python `s.endswith(".")`. -/
def endsWithDot (s : Str) : Bool := s.getLast? = some '.'

/-- Python `<` on strings: code-point lexicographic order. -/
def strLt : Str → Str → Bool
  | [], [] => false
  | [], _ :: _ => true
  | _ :: _, [] => false
  | a :: s, b :: t =>
    if a.toNat < b.toNat then true
    else if b.toNat < a.toNat then false
    else strLt s t

/-- Python `<=` on strings (the total preorder used when sorting ascending). -/
def strLe (s t : Str) : Bool := !(strLt t s)

/-- Truthiness of an optional Python string (`None` and `""` are falsy). -/
def pyTruthy : Option Str → Bool
  | none => false
  | some s => !s.isEmpty

/-- Truthiness of an optional Python integer (`None` and `0` are falsy). -/
def pyTruthyInt : Option Int → Bool
  | none => false
  | some n => n != 0

/-! ### UTC datetimes and `strptime` -/

/-- A UTC `datetime` as produced by parsing `"%Y-%m-%dT%H:%M:%SZ"`. -/
structure DateTime where
  year : Nat
  month : Nat
  day : Nat
  hour : Nat
  minute : Nat
  second : Nat
deriving DecidableEq, Repr

/-- Field-lexicographic encoding of a datetime; comparison of `datetime` values
with equal timezone is comparison of their calendar fields in order. -/
def DateTime.enc (d : DateTime) : Nat :=
  ((((d.year * 100 + d.month) * 100 + d.day) * 100 + d.hour) * 100 + d.minute) * 100 + d.second

/-- Python `<=` on two UTC datetimes. -/
def dtLe (a b : DateTime) : Bool := a.enc ≤ b.enc

/-- Python `<` on two UTC datetimes. -/
def dtLt (a b : DateTime) : Bool := a.enc < b.enc

/-- One token of a `strptime` format: a digit position or a literal character. -/
inductive FTok where
  | dig
  | lit (c : Char)
deriving DecidableEq

/-- The canonical zero-padded rendering of `"%Y-%m-%dT%H:%M:%SZ"` as positional
tokens: `%Y` four digits, the other directives two digits each, the literals
in their exact case. `strptime` also accepts non-canonical forms (missing
leading zeros, lower-case `t`/`z`); only on canonical strings does code-point
order coincide with chronological order. -/
def FORMAT : List FTok :=
  [.dig, .dig, .dig, .dig, .lit '-', .dig, .dig, .lit '-', .dig, .dig, .lit 'T',
   .dig, .dig, .lit ':', .dig, .dig, .lit ':', .dig, .dig, .lit 'Z']

/-- Is `c` an ASCII digit? -/
def isDigitCh (c : Char) : Bool := 48 ≤ c.toNat && c.toNat ≤ 57

/-- Numeric value of a digit character. -/
def digitVal (c : Char) : Nat := c.toNat - 48

/-- Is the string a canonical rendering, token by token? -/
def matchesFormat : List FTok → Str → Bool
  | [], [] => true
  | .dig :: fs, c :: cs => isDigitCh c && matchesFormat fs cs
  | .lit ch :: fs, c :: cs => c = ch && matchesFormat fs cs
  | _, _ => false

/-- The values of the digit positions of a string, in order. -/
def fdigits : List FTok → Str → List Nat
  | .dig :: fs, c :: cs => digitVal c :: fdigits fs cs
  | .lit _ :: fs, _ :: cs => fdigits fs cs
  | _, _ => []

/-- The number denoted by a digit-value list (most significant first). -/
def valDigits (ds : List Nat) : Nat := ds.foldl (fun a d => a * 10 + d) 0

/-- Gregorian leap-year test used by `datetime` validation. -/
def isLeapYear (y : Nat) : Bool := (y % 4 = 0 && y % 100 != 0) || y % 400 = 0

/-- Length of a month, as validated by `datetime`. -/
def daysInMonth (y m : Nat) : Nat :=
  if m = 2 then (if isLeapYear y then 29 else 28)
  else if m = 4 || m = 6 || m = 9 || m = 11 then 30 else 31

/-- One format literal: `strptime` compiles its pattern with `IGNORECASE`, so
the letter literals `T` and `Z` match either case. -/
def matchLit (c : Char) : Str → Option Str
  | x :: rest => if x.toLower = c.toLower then some rest else none
  | [] => none

/-- One numeric `strptime` directive whose following format token is a
non-digit literal. CPython's field patterns make the leading zero optional
(`%m` is `1[0-2]|0[1-9]|[1-9]`, and similarly for `%d`, `%H`, `%M`, `%S`):
when two digits follow, the trailing literal forces both to be consumed and
the two-digit value must lie in `[lo2, hi2]`; a lone digit must satisfy the
directive's single-digit alternative. -/
def parseField2 (lo2 hi2 : Nat) (okOne : Nat → Bool) : Str → Option (Nat × Str)
  | c1 :: c2 :: rest =>
    if isDigitCh c1 && isDigitCh c2 then
      let v := digitVal c1 * 10 + digitVal c2
      if lo2 ≤ v ∧ v ≤ hi2 then some (v, rest) else none
    else if isDigitCh c1 then
      if okOne (digitVal c1) then some (digitVal c1, c2 :: rest) else none
    else none
  | [c1] => if isDigitCh c1 && okOne (digitVal c1) then some (digitVal c1, []) else none
  | [] => none

/-- The `%Y` directive: exactly four digits. -/
def parseYear : Str → Option (Nat × Str)
  | a :: b :: c :: d :: rest =>
    if isDigitCh a && isDigitCh b && isDigitCh c && isDigitCh d then
      some ((((digitVal a * 10 + digitVal b) * 10 + digitVal c) * 10 + digitVal d), rest)
    else none
  | _ => none

/-- Model of `datetime.strptime(s, "%Y-%m-%dT%H:%M:%SZ").replace(tzinfo=timezone.utc)`
with CPython's leniency: leading zeros are optional for `%m`, `%d`, `%H`,
`%M`, `%S`; the literals `T` and `Z` match case-insensitively; the whole
string must be consumed; and the `datetime` constructor additionally requires
year ≥ 1, seconds ≤ 59, and a day valid for the month. `none` models the
`ValueError` that the surrounding `try` turns into a skip. -/
def parseDueAt (s : Str) : Option DateTime := do
  let (y, s1) ← parseYear s
  let s2 ← matchLit '-' s1
  let (mo, s3) ← parseField2 1 12 (fun v => 1 ≤ v) s2
  let s4 ← matchLit '-' s3
  let (d, s5) ← parseField2 1 31 (fun v => 1 ≤ v) s4
  let s6 ← matchLit 'T' s5
  let (h, s7) ← parseField2 0 23 (fun _ => true) s6
  let s8 ← matchLit ':' s7
  let (mi, s9) ← parseField2 0 59 (fun _ => true) s8
  let s10 ← matchLit ':' s9
  let (se, s11) ← parseField2 0 59 (fun _ => true) s10
  let s12 ← matchLit 'Z' s11
  if s12 = [] ∧ 1 ≤ y ∧ d ≤ daysInMonth y mo then some ⟨y, mo, d, h, mi, se⟩
  else none

/-! ### Data model -/

/-- One raw assignment record as consumed by the loop: the fields of the remote
task that `main` reads (`.get` with its defaults is modelled by `Option`). -/
structure Assignment where
  id : Str
  name : Option Str
  due_at : Option Str
  submitted_at : Option Str
  description : Option Str
deriving DecidableEq

/-- One favorite-course record together with the outcome of its per-course
assignment fetch (`none` models a `RequestException`, which skips the course). -/
structure CourseData where
  id : Option Int
  name : Option Str
  assignments : Option (List Assignment)
deriving DecidableEq

/-- The static mapping from Canvas course names to Apple Reminders list names. -/
def COURSE_TO_LIST (course_name : Str) : Option Str :=
  if course_name = ("Design of Artificial Intelligence Products").data then some ("05-317").data
  else if course_name = ("Principles of Functional Programming").data then some ("15-150").data
  else if course_name = ("Ethics and Policy Issues in Computing").data then some ("17-200").data
  else if course_name = ("Business, Society and Ethics").data then some ("70-332").data
  else none

/-- Observable calls made to the external collaborators, in order. -/
inductive Event where
  | summarizeCall (prompt : Str)
  | removeReminder (title list_name : Str)
  | addReminder (title due_str list_name notes : Str)
deriving DecidableEq

/-- The external collaborators: the `ollama` chat call (`none` models an
exception), the two local-timezone `strftime` renderings, and the exit
status of `osascript` — which `run_applescript` never inspects. -/
structure Collab where
  ollamaChat : Str → Option Str
  fmtApple : DateTime → Str
  fmtDisplay : DateTime → Str
  osaResult : Str → Int

/-- The in-memory state the run mutates. -/
structure SyncState where
  summary_cache : List (Str × Str)
  completion_cache : List Str
  total_added : Nat
  added_by_course : List (Str × List (Str × Str))
  all_due_dates : List DateTime
  events : List Event
deriving DecidableEq

/-! ### Dict and set primitives -/

/-- Python dict lookup (`m[k]` / `k in m`) for a string-keyed dict modelled as
an insertion-ordered association list. -/
def lookupS : List (Str × Str) → Str → Option Str
  | [], _ => none
  | (k1, v1) :: rest, k => if k1 = k then some v1 else lookupS rest k

/-- Python dict assignment `m[k] = v`: overwrite in place, else append. -/
def setS : List (Str × Str) → Str → Str → List (Str × Str)
  | [], k, v => [(k, v)]
  | (k1, v1) :: rest, k, v =>
    if k1 = k then (k1, v) :: rest else (k1, v1) :: setS rest k v

/-- Python `set.add` on a set modelled as a duplicate-free list. -/
def addToSet (s : List Str) (x : Str) : List Str := if x ∈ s then s else s ++ [x]

/-- The two-line idiom that appends `p` to `added_by_course[c]`, creating the
empty list first when the course is absent. -/
def appendCourse : List (Str × List (Str × Str)) → Str → (Str × Str) → List (Str × List (Str × Str))
  | [], c, p => [(c, [p])]
  | (c1, l) :: rest, c, p =>
    if c1 = c then (c1, l ++ [p]) :: rest else (c1, l) :: appendCourse rest c p

/-! ### The summarizer -/

/-- The prompt built by `summarize_description`. -/
def promptText (description : Str) : Str :=
  ("Summarize this assignment in one short sentence (max 20 words). Only return the summary — no intro or explanation.\n\n").data
    ++ pyStrip description

/-- Result of one `summarize_description` call: returned text, the summary
cache afterwards, and the collaborator calls made. -/
structure SumResult where
  text : Str
  cache : List (Str × Str)
  events : List Event
deriving DecidableEq

/-- Model of `summarize_description`: cache hit returns the cached entry and
makes no collaborator call; otherwise the model is invoked, its first
period-delimited sentence is clipped to 20 words, given a trailing period,
cached and returned; an exception returns `""` and caches nothing. -/
def summarize_description (co : Collab) (cache : List (Str × Str))
    (description assignment_id : Str) : SumResult :=
  match lookupS cache assignment_id with
  | some s => ⟨s, cache, []⟩
  | none =>
    let prompt := promptText description
    match co.ollamaChat prompt with
    | some content =>
      let full := pyStrip content
      let short := pyStrip (full.takeWhile (fun c => c ≠ '.'))
      let ws := pyWords short
      let short2 := pyStrip (joinSpace (ws.take 20))
      let short3 := if short2 ≠ [] && !(endsWithDot short2) then short2 ++ ['.'] else short2
      ⟨short3, setS cache assignment_id short3, [.summarizeCall prompt]⟩
    | none => ⟨[], cache, [.summarizeCall prompt]⟩

/-! ### The per-assignment loop body -/

/-- The body of the inner `for index, assignment in enumerate(assignments, ...)`
loop, as a state transformer. Weekday and nearest-deadline statistics are not
modelled; no theorem below concerns them. -/
def processAssignment (co : Collab) (now : DateTime) (course_name reminder_list : Str)
    (st : SyncState) (a : Assignment) : SyncState :=
  let title := a.name.getD ("No Title").data
  let assignment_id := a.id
  if assignment_id ∈ st.completion_cache then st
  else
    let submitted := a.submitted_at.isSome
    if submitted || !(pyTruthy a.due_at) then st
    else
      match parseDueAt (a.due_at.getD []) with
      | none => st
      | some due_date_utc =>
        if dtLe due_date_utc now then st
        else
          let apple_due := co.fmtApple due_date_utc
          let display_due := co.fmtDisplay due_date_utc
          let st1 := { st with all_due_dates := st.all_due_dates ++ [due_date_utc] }
          let sr :=
            if pyTruthy a.description then
              summarize_description co st1.summary_cache (a.description.getD []) assignment_id
            else ⟨[], st1.summary_cache, []⟩
          { st1 with
            summary_cache := sr.cache
            events := st1.events ++ sr.events ++
              [.removeReminder title reminder_list,
               .addReminder title apple_due reminder_list sr.text]
            completion_cache := addToSet st1.completion_cache assignment_id
            added_by_course := appendCourse st1.added_by_course course_name (title, display_due)
            total_added := st1.total_added + 1 }

/-! ### Sorting -/

/-- The sort key `a.get("due_at") or ""`. -/
def sortKey (a : Assignment) : Str := a.due_at.getD []

/-- Stable insertion of `a` (taken from before the tail) into an
already-sorted tail: walk past strictly smaller keys only, so `a` lands
before every key equal to its own. -/
def insertAssign (a : Assignment) : List Assignment → List Assignment
  | [] => [a]
  | b :: bs => if strLt (sortKey b) (sortKey a) then b :: insertAssign a bs else a :: b :: bs

/-- Model of `assignments.sort(key=lambda a: a.get("due_at") or "")`: a stable
ascending sort by key. Python's sort is also stable, and for a total preorder
on keys the stable sorted permutation is unique, so the two agree exactly. -/
def sortAssignments : List Assignment → List Assignment
  | [] => []
  | a :: rest => insertAssign a (sortAssignments rest)

/-! ### The per-course loop -/

/-- The assignment sequence the inner loop actually iterates for a course:
empty when the fetch failed or returned nothing, else the fetched list sorted
by due date. -/
def courseIterList (c : CourseData) : List Assignment :=
  match c.assignments with
  | none => []
  | some assignments => if assignments.isEmpty then [] else sortAssignments assignments

/-- The body of the outer `for course in favorite_courses` loop: unmapped or
id-less courses are skipped whole, a failed or empty fetch is skipped, and
otherwise the sorted assignments are folded through `processAssignment`. -/
def processCourse (co : Collab) (now : DateTime) (st : SyncState) (c : CourseData) : SyncState :=
  let course_name := c.name.getD ("Unnamed Course").data
  match COURSE_TO_LIST course_name with
  | none => st
  | some reminder_list =>
    if !(pyTruthyInt c.id) then st
    else (courseIterList c).foldl (processAssignment co now course_name reminder_list) st

/-! ### The whole run -/

/-- The three caches as loaded at process start. -/
structure LoadedCaches where
  summary_cache : List (Str × Str)
  strategy_cache : List (Str × Str)
  completion_cache : List Str
deriving DecidableEq

/-- The state at the top of the course loop. -/
def initialState (lc : LoadedCaches) : SyncState :=
  ⟨lc.summary_cache, lc.completion_cache, 0, [], [], []⟩

/-- One reconciliation run over the favourite-course list. -/
def runSync (co : Collab) (now : DateTime) (lc : LoadedCaches)
    (favorite_courses : List CourseData) : SyncState :=
  favorite_courses.foldl (processCourse co now) (initialState lc)

/-! ### Cache loading -/

/-- Model of one cache load. The backing storage is `none` when the file is
absent, `some none` when it exists but `json.load` raises (unreadable or
malformed), and `some (some v)` when it parses to `v`. The source guards only
existence: an existing unreadable file raises out of `main`. -/
def load_cache {α : Type} (storage : Option (Option α)) (empty : α) : Except Unit α :=
  match storage with
  | none => Except.ok empty
  | some none => Except.error ()
  | some (some v) => Except.ok v

/-- The three sequential cache loads at the top of `main`, in source order:
summaries, study strategies, completions. -/
def load_all_caches (s1 s2 : Option (Option (List (Str × Str))))
    (s3 : Option (Option (List Str))) : Except Unit LoadedCaches := do
  let summary_cache ← load_cache s1 []
  let strategy_cache ← load_cache s2 []
  let completion_cache ← load_cache s3 []
  Except.ok ⟨summary_cache, strategy_cache, completion_cache⟩

/-! ### The plan cache key -/

/-- Model of the study-plan cache key:
`"|".join(f"{title}-{due}" for course in added_by_course.values() for title, due in course)`. -/
def buildCacheKey (added_by_course : List (Str × List (Str × Str))) : Str :=
  joinBar (((added_by_course.map Prod.snd).flatten).map (fun p => p.1 ++ '-' :: p.2))

/-! ### The task filter, as a decision -/

/-- The five possible outcomes of the skip chain at the top of the inner loop. -/
inductive FilterDecision where
  | Include (due : DateTime)
  | SkipCompletedLocally
  | SkipSubmittedOrNoDueDate
  | SkipMalformedDate
  | SkipPastDue
deriving DecidableEq

/-- The skip chain of the inner loop body as a pure decision function, in
source order: completion cache first, then submission/missing due date, then
the date parse, then the past-due test. -/
def taskFilter (completion_cache : List Str) (now : DateTime) (a : Assignment) : FilterDecision :=
  if a.id ∈ completion_cache then .SkipCompletedLocally
  else if a.submitted_at.isSome || !(pyTruthy a.due_at) then .SkipSubmittedOrNoDueDate
  else
    match parseDueAt (a.due_at.getD []) with
    | none => .SkipMalformedDate
    | some due => if dtLe due now then .SkipPastDue else .Include due

/-! ### Auxiliary predicates for the theorems -/

/-- Non-descending keys, the order produced by `list.sort`. -/
def keyLeR (a b : Assignment) : Prop := strLt (sortKey b) (sortKey a) = false

/-- Strict lexicographic comparison of digit-value lists. -/
def lexNLt : List Nat → List Nat → Bool
  | [], [] => false
  | [], _ :: _ => true
  | _ :: _, [] => false
  | a :: s, b :: t => if a < b then true else if b < a then false else lexNLt s t

/-- A task the first run skipped for a reason that does not depend on the
caches: submitted or missing due date, malformed date, or already past due at
time `now`. Such a task is skipped by every later run as well. -/
def persistentSkip (now : DateTime) (a : Assignment) : Prop :=
  (a.submitted_at.isSome || !(pyTruthy a.due_at)) = true ∨
  parseDueAt (a.due_at.getD []) = none ∨
  ∃ d, parseDueAt (a.due_at.getD []) = some d ∧ dtLe d now = true

/-- The guards under which a course's assignments are actually iterated. -/
def coursePasses (c : CourseData) : Prop :=
  (COURSE_TO_LIST (c.name.getD ("Unnamed Course").data)).isSome = true ∧
  pyTruthyInt c.id = true

/-! ### Concrete sample data, used by the witness theorems -/

/-- Sample collaborators whose summarizer always fails. -/
def exCollab : Collab where
  ollamaChat := fun _ => none
  fmtApple := fun _ => ("Friday, June 13, 2099 at 08:00:00 PM").data
  fmtDisplay := fun _ => ("06/13/2099").data
  osaResult := fun _ => 0

/-- Sample collaborators whose summarizer returns a fixed two-sentence text. -/
def exCollabOk : Collab :=
  { exCollab with ollamaChat := fun _ => some ("A short answer. More text.").data }

/-- A run instant before the sample due date. -/
def exNow : DateTime := ⟨2024, 5, 1, 12, 0, 0⟩

/-- A later run instant. -/
def exNow2 : DateTime := ⟨2024, 5, 2, 12, 0, 0⟩

/-- A sample open assignment, due in the future, with no description. -/
def exAssign : Assignment where
  id := ("101").data
  name := some ("HW1").data
  due_at := some ("2099-06-13T20:00:00Z").data
  submitted_at := none
  description := none

/-- The same assignment with a description, due a day earlier. -/
def exAssign2 : Assignment where
  id := ("102").data
  name := some ("HW2").data
  due_at := some ("2099-06-12T20:00:00Z").data
  submitted_at := none
  description := some ("Essay on AI ethics").data

/-- A sample mapped course whose fetch returned the two assignments in
reverse due order. -/
def exCourse : CourseData where
  id := some 7
  name := some ("Principles of Functional Programming").data
  assignments := some [exAssign, exAssign2]

/-- Empty caches at process start. -/
def exLC : LoadedCaches := ⟨[], [], []⟩

/-- An open assignment due September 1, 2099, with a non-zero-padded month —
a form `strptime` accepts. -/
def exAssignSep : Assignment where
  id := ("201").data
  name := some ("Sep task").data
  due_at := some ("2099-9-01T00:00:00Z").data
  submitted_at := none
  description := none

/-- An open assignment due October 1, 2099, in canonical form. -/
def exAssignOct : Assignment where
  id := ("202").data
  name := some ("Oct task").data
  due_at := some ("2099-10-01T00:00:00Z").data
  submitted_at := none
  description := none

/-- A mapped course whose fetch returned the September and October tasks:
the string sort places the October due date first. -/
def exCourse910 : CourseData where
  id := some 8
  name := some ("Principles of Functional Programming").data
  assignments := some [exAssignSep, exAssignOct]

/-! ### Order theory of code-point comparison -/

theorem char_toNat_inj {a b : Char} (h : a.toNat = b.toNat) : a = b := by
  have h2 := Char.ofNat_toNat a
  rw [h, Char.ofNat_toNat] at h2
  exact h2.symm

theorem strLt_irrefl : ∀ s : Str, strLt s s = false
  | [] => rfl
  | a :: s => by simp [strLt, strLt_irrefl s]

theorem strLt_asymm : ∀ {s t : Str}, strLt s t = true → strLt t s = true → False
  | [], [], h, _ => by simp [strLt] at h
  | [], _ :: _, _, h2 => by simp [strLt] at h2
  | _ :: _, [], h, _ => by simp [strLt] at h
  | a :: s, b :: t, h1, h2 => by
    simp only [strLt] at h1 h2
    split at h1
    · rename_i hab
      rw [if_neg (by omega), if_pos hab] at h2
      exact Bool.false_ne_true h2
    · split at h1
      · exact Bool.false_ne_true h1
      · rename_i hab hba
        rw [if_neg hba, if_neg hab] at h2
        exact strLt_asymm h1 h2

theorem strLt_trans : ∀ {s t u : Str}, strLt s t = true → strLt t u = true → strLt s u = true
  | [], [], _, h1, _ => by simp [strLt] at h1
  | [], _ :: _, [], _, h2 => by simp [strLt] at h2
  | [], _ :: _, _ :: _, _, _ => rfl
  | _ :: _, [], _, h1, _ => by simp [strLt] at h1
  | _ :: _, _ :: _, [], _, h2 => by simp [strLt] at h2
  | a :: s, b :: t, c :: u, h1, h2 => by
    simp only [strLt] at h1 h2 ⊢
    split at h1
    · rename_i hab
      split at h2
      · rename_i hbc
        rw [if_pos (by omega)]
      · split at h2
        · exact absurd h2 (by simp)
        · rename_i hcb hbc
          have : b.toNat = c.toNat := by omega
          rw [if_pos (by omega)]
    · split at h1
      · exact absurd h1 (by simp)
      · rename_i hba hab
        have hab2 : a.toNat = b.toNat := by omega
        split at h2
        · rename_i hbc
          rw [if_pos (by omega)]
        · split at h2
          · exact absurd h2 (by simp)
          · rename_i hcb hbc
            rw [if_neg (by omega), if_neg (by omega)]
            exact strLt_trans h1 h2

theorem strLt_connex : ∀ {s t : Str}, strLt s t = false → strLt t s = false → s = t
  | [], [], _, _ => rfl
  | [], _ :: _, h1, _ => by simp [strLt] at h1
  | _ :: _, [], _, h2 => by simp [strLt] at h2
  | a :: s, b :: t, h1, h2 => by
    simp only [strLt] at h1 h2
    split at h1
    · exact absurd h1 (by simp)
    · split at h1
      · rename_i hab hba
        rw [if_pos hba] at h2
        exact absurd h2 (by simp)
      · rename_i hab hba
        have : a = b := char_toNat_inj (by omega)
        subst this
        rw [if_neg hab, if_neg hab] at h2
        rw [strLt_connex h1 h2]

/-- Transitivity of the non-strict order `strLt · · = false` used by the sort. -/
theorem strNLt_trans {s t u : Str} (h1 : strLt t s = false) (h2 : strLt u t = false) :
    strLt u s = false := by
  cases h3 : strLt u s with
  | false => rfl
  | true =>
    cases h4 : strLt t u with
    | true => exact absurd (strLt_trans h4 h3) (by rw [h1]; simp)
    | false =>
      have he : u = t := strLt_connex h2 h4
      rw [he, h1] at h3
      exact absurd h3 (by simp)

/-! ### Sortedness of the stable insertion sort -/

theorem mem_insertAssign {x a : Assignment} :
    ∀ {l : List Assignment}, x ∈ insertAssign a l → x = a ∨ x ∈ l
  | [], h => by simpa [insertAssign] using h
  | b :: bs, h => by
    simp only [insertAssign] at h
    split at h
    · rcases List.mem_cons.1 h with h | h
      · exact Or.inr (List.mem_cons.2 (Or.inl h))
      · rcases mem_insertAssign h with h | h
        · exact Or.inl h
        · exact Or.inr (List.mem_cons.2 (Or.inr h))
    · rcases List.mem_cons.1 h with h | h
      · exact Or.inl h
      · exact Or.inr h

theorem pairwise_insertAssign {a : Assignment} :
    ∀ {l : List Assignment}, l.Pairwise keyLeR → (insertAssign a l).Pairwise keyLeR
  | [], _ => List.pairwise_singleton _ _
  | b :: bs, h => by
    rcases List.pairwise_cons.1 h with ⟨hb, hbs⟩
    simp only [insertAssign]
    split
    · rename_i hba
      refine List.pairwise_cons.2 ⟨fun x hx => ?_, pairwise_insertAssign hbs⟩
      rcases mem_insertAssign hx with h5 | hx
      · rw [h5]
        show strLt (sortKey a) (sortKey b) = false
        cases h4 : strLt (sortKey a) (sortKey b) with
        | false => rfl
        | true => exact (strLt_asymm hba h4).elim
      · exact hb x hx
    · rename_i hba
      have hba2 : strLt (sortKey b) (sortKey a) = false := by simpa using hba
      refine List.pairwise_cons.2 ⟨fun x hx => ?_, h⟩
      rcases List.mem_cons.1 hx with rfl | hx
      · exact hba2
      · exact strNLt_trans hba2 (hb x hx)

theorem pairwise_sortAssignments :
    ∀ l : List Assignment, (sortAssignments l).Pairwise keyLeR
  | [] => List.Pairwise.nil
  | a :: rest => pairwise_insertAssign (pairwise_sortAssignments rest)

/-! ### Lexicographic comparison of fixed-format strings is numeric comparison -/

theorem matchesFormat_dig {fs : List FTok} {s : Str}
    (h : matchesFormat (.dig :: fs) s = true) :
    ∃ c cs, s = c :: cs ∧ isDigitCh c = true ∧ matchesFormat fs cs = true := by
  cases s with
  | nil => simp [matchesFormat] at h
  | cons c cs =>
    simp only [matchesFormat, Bool.and_eq_true] at h
    exact ⟨c, cs, rfl, h.1, h.2⟩

theorem matchesFormat_lit {ch : Char} {fs : List FTok} {s : Str}
    (h : matchesFormat (.lit ch :: fs) s = true) :
    ∃ cs, s = ch :: cs ∧ matchesFormat fs cs = true := by
  cases s with
  | nil => simp [matchesFormat] at h
  | cons c cs =>
    simp only [matchesFormat, Bool.and_eq_true, decide_eq_true_eq] at h
    exact ⟨cs, by rw [h.1], h.2⟩

theorem matchesFormat_nil {s : Str} (h : matchesFormat [] s = true) : s = [] := by
  cases s with
  | nil => rfl
  | cons c cs => simp [matchesFormat] at h

theorem digit_bounds {c : Char} (h : isDigitCh c = true) :
    48 ≤ c.toNat ∧ c.toNat ≤ 57 := by
  simpa [isDigitCh, Bool.and_eq_true] using h

/-- On two strings matching the same format, code-point comparison is
lexicographic comparison of the digit values, and equality of the strings is
equality of the digit values. -/
theorem strLt_eq_lexNLt : ∀ (f : List FTok) (s t : Str),
    matchesFormat f s = true → matchesFormat f t = true →
    (strLt s t = lexNLt (fdigits f s) (fdigits f t)) ∧
    (s = t ↔ fdigits f s = fdigits f t)
  | [], s, t, hs, ht => by
    rw [matchesFormat_nil hs, matchesFormat_nil ht]
    exact ⟨rfl, by simp⟩
  | .dig :: fs, s, t, hs, ht => by
    obtain ⟨c, cs, rfl, hc, hcs⟩ := matchesFormat_dig hs
    obtain ⟨e, es, rfl, he, hes⟩ := matchesFormat_dig ht
    obtain ⟨hc1, hc2⟩ := digit_bounds hc
    obtain ⟨he1, he2⟩ := digit_bounds he
    have ih := strLt_eq_lexNLt fs cs es hcs hes
    simp only [strLt, fdigits, lexNLt]
    rcases Nat.lt_trichotomy c.toNat e.toNat with hlt | heq | hgt
    · rw [if_pos hlt, if_pos (by simp only [digitVal]; omega)]
      constructor
      · rfl
      · constructor
        · intro h; cases h; omega
        · intro h; rw [List.cons.injEq] at h; simp only [digitVal] at h; omega
    · have hce : c = e := char_toNat_inj heq
      subst hce
      rw [if_neg (by omega), if_neg (by omega), if_neg (by simp only [digitVal]; omega),
        if_neg (by simp only [digitVal]; omega)]
      refine ⟨ih.1, ?_⟩
      constructor
      · intro h; rw [List.cons.injEq] at h; rw [ih.2.1 h.2]
      · intro h; rw [List.cons.injEq] at h; rw [ih.2.2 h.2]
    · rw [if_neg (by omega), if_pos hgt, if_neg (by simp only [digitVal]; omega),
        if_pos (by simp only [digitVal]; omega)]
      constructor
      · rfl
      · constructor
        · intro h; cases h; omega
        · intro h; rw [List.cons.injEq] at h; simp only [digitVal] at h; omega
  | .lit ch :: fs, s, t, hs, ht => by
    obtain ⟨cs, rfl, hcs⟩ := matchesFormat_lit hs
    obtain ⟨es, rfl, hes⟩ := matchesFormat_lit ht
    have ih := strLt_eq_lexNLt fs cs es hcs hes
    simp only [strLt, fdigits, if_neg (Nat.lt_irrefl _)]
    refine ⟨ih.1, ?_⟩
    constructor
    · intro h; rw [List.cons.injEq] at h; rw [ih.2.1 h.2]
    · intro h; rw [ih.2.2 h]

theorem fdigits_lt_ten : ∀ (f : List FTok) (s : Str),
    matchesFormat f s = true → ∀ d ∈ fdigits f s, d < 10
  | [], s, hs => by rw [matchesFormat_nil hs]; simp [fdigits]
  | .dig :: fs, s, hs => by
    obtain ⟨c, cs, rfl, hc, hcs⟩ := matchesFormat_dig hs
    obtain ⟨h1, h2⟩ := digit_bounds hc
    intro d hd
    rcases List.mem_cons.1 hd with rfl | hd
    · simp only [digitVal]; omega
    · exact fdigits_lt_ten fs cs hcs d hd
  | .lit ch :: fs, s, hs => by
    obtain ⟨cs, rfl, hcs⟩ := matchesFormat_lit hs
    exact fdigits_lt_ten fs cs hcs

theorem fdigits_length_eq : ∀ (f : List FTok) (s t : Str),
    matchesFormat f s = true → matchesFormat f t = true →
    (fdigits f s).length = (fdigits f t).length
  | [], s, t, hs, ht => by rw [matchesFormat_nil hs, matchesFormat_nil ht]
  | .dig :: fs, s, t, hs, ht => by
    obtain ⟨c, cs, rfl, _, hcs⟩ := matchesFormat_dig hs
    obtain ⟨e, es, rfl, _, hes⟩ := matchesFormat_dig ht
    simp only [fdigits, List.length_cons]
    rw [fdigits_length_eq fs cs es hcs hes]
  | .lit ch :: fs, s, t, hs, ht => by
    obtain ⟨cs, rfl, hcs⟩ := matchesFormat_lit hs
    obtain ⟨es, rfl, hes⟩ := matchesFormat_lit ht
    exact fdigits_length_eq fs cs es hcs hes

/-! ### Digit-value lists denote numbers -/

theorem valDigits_shift : ∀ (ds : List Nat) (a : Nat),
    List.foldl (fun x d => x * 10 + d) a ds = a * 10 ^ ds.length + valDigits ds
  | [], a => by simp [valDigits]
  | d :: ds, a => by
    show List.foldl (fun x e => x * 10 + e) (a * 10 + d) ds
        = a * 10 ^ (ds.length + 1) + valDigits (d :: ds)
    rw [valDigits_shift ds (a * 10 + d),
      show valDigits (d :: ds) = List.foldl (fun x e => x * 10 + e) (0 * 10 + d) ds from rfl,
      valDigits_shift ds (0 * 10 + d)]
    ring

theorem valDigits_cons (d : Nat) (ds : List Nat) :
    valDigits (d :: ds) = d * 10 ^ ds.length + valDigits ds := by
  rw [show valDigits (d :: ds) = List.foldl (fun x e => x * 10 + e) (0 * 10 + d) ds from rfl,
    valDigits_shift ds (0 * 10 + d)]
  ring

theorem valDigits_lt : ∀ ds : List Nat, (∀ d ∈ ds, d < 10) → valDigits ds < 10 ^ ds.length
  | [], _ => by simp [valDigits]
  | d :: ds, h => by
    rw [valDigits_cons, List.length_cons, pow_succ]
    have h1 : valDigits ds < 10 ^ ds.length := valDigits_lt ds fun x hx => h x (List.mem_cons.2 (Or.inr hx))
    have h2 : d < 10 := h d (List.mem_cons.2 (Or.inl rfl))
    calc d * 10 ^ ds.length + valDigits ds
        < d * 10 ^ ds.length + 10 ^ ds.length := by omega
      _ = (d + 1) * 10 ^ ds.length := by ring
      _ ≤ 10 * 10 ^ ds.length := Nat.mul_le_mul_right _ (by omega)
      _ = 10 ^ ds.length * 10 := by ring

theorem lexNLt_iff_val : ∀ (ds dt : List Nat), ds.length = dt.length →
    (∀ d ∈ ds, d < 10) → (∀ d ∈ dt, d < 10) →
    (lexNLt ds dt = true ↔ valDigits ds < valDigits dt)
  | [], [], _, _, _ => by simp [lexNLt]
  | [], _ :: _, h, _, _ => by simp at h
  | _ :: _, [], h, _, _ => by simp at h
  | a :: as2, b :: bs2, h, ha, hb => by
    have hlen : as2.length = bs2.length := by simpa using h
    have ha2 : ∀ d ∈ as2, d < 10 := fun x hx => ha x (List.mem_cons.2 (Or.inr hx))
    have hb2 : ∀ d ∈ bs2, d < 10 := fun x hx => hb x (List.mem_cons.2 (Or.inr hx))
    have hva : valDigits as2 < 10 ^ as2.length := valDigits_lt as2 ha2
    have hvb : valDigits bs2 < 10 ^ bs2.length := valDigits_lt bs2 hb2
    rw [valDigits_cons, valDigits_cons, ← hlen]
    simp only [lexNLt]
    rcases Nat.lt_trichotomy a b with hlt | heq | hgt
    · rw [if_pos hlt]
      have hstep : (a + 1) * 10 ^ as2.length ≤ b * 10 ^ as2.length :=
        Nat.mul_le_mul_right _ (by omega)
      have hexp : (a + 1) * 10 ^ as2.length = a * 10 ^ as2.length + 10 ^ as2.length := by ring
      have hmain : a * 10 ^ as2.length + valDigits as2 < b * 10 ^ as2.length + valDigits bs2 := by
        omega
      simp [hmain]
    · subst heq
      rw [if_neg (by omega), if_neg (by omega)]
      rw [lexNLt_iff_val as2 bs2 hlen ha2 hb2]
      omega
    · rw [if_neg (by omega), if_pos hgt]
      have hstep : (b + 1) * 10 ^ as2.length ≤ a * 10 ^ as2.length :=
        Nat.mul_le_mul_right _ (by omega)
      have hexp : (b + 1) * 10 ^ as2.length = b * 10 ^ as2.length + 10 ^ as2.length := by ring
      have hvb2 : valDigits bs2 < 10 ^ as2.length := by rw [hlen]; exact hvb
      have hmain : b * 10 ^ as2.length + valDigits bs2 < a * 10 ^ as2.length + valDigits as2 := by
        omega
      constructor
      · intro hc
        exact absurd hc (by simp)
      · intro hc
        omega

/-- Code-point comparison of two strings matching the date format is numeric
comparison of their digit strings. -/
theorem strLt_iff_valDigits {s t : Str}
    (hs : matchesFormat FORMAT s = true) (ht : matchesFormat FORMAT t = true) :
    strLt s t = true ↔ valDigits (fdigits FORMAT s) < valDigits (fdigits FORMAT t) := by
  rw [(strLt_eq_lexNLt FORMAT s t hs ht).1]
  exact lexNLt_iff_val _ _ (fdigits_length_eq FORMAT s t hs ht)
    (fdigits_lt_ten FORMAT s hs) (fdigits_lt_ten FORMAT t ht)

/-- A parse of a canonical zero-padded string: the field encoding of the
resulting datetime is the number the string's digits denote. -/
theorem parse_enc {s : Str} {dt : DateTime} (hm : matchesFormat FORMAT s = true)
    (hp : parseDueAt s = some dt) : dt.enc = valDigits (fdigits FORMAT s) := by
  simp only [FORMAT] at hm
  obtain ⟨y1, r1, rfl, hy1, hm⟩ := matchesFormat_dig hm
  obtain ⟨y2, r2, rfl, hy2, hm⟩ := matchesFormat_dig hm
  obtain ⟨y3, r3, rfl, hy3, hm⟩ := matchesFormat_dig hm
  obtain ⟨y4, r4, rfl, hy4, hm⟩ := matchesFormat_dig hm
  obtain ⟨r5, rfl, hm⟩ := matchesFormat_lit hm
  obtain ⟨m1, r6, rfl, hm1, hm⟩ := matchesFormat_dig hm
  obtain ⟨m2, r7, rfl, hm2, hm⟩ := matchesFormat_dig hm
  obtain ⟨r8, rfl, hm⟩ := matchesFormat_lit hm
  obtain ⟨d1, r9, rfl, hd1, hm⟩ := matchesFormat_dig hm
  obtain ⟨d2, r10, rfl, hd2, hm⟩ := matchesFormat_dig hm
  obtain ⟨r11, rfl, hm⟩ := matchesFormat_lit hm
  obtain ⟨e1, r12, rfl, he1, hm⟩ := matchesFormat_dig hm
  obtain ⟨e2, r13, rfl, he2, hm⟩ := matchesFormat_dig hm
  obtain ⟨r14, rfl, hm⟩ := matchesFormat_lit hm
  obtain ⟨n1, r15, rfl, hn1, hm⟩ := matchesFormat_dig hm
  obtain ⟨n2, r16, rfl, hn2, hm⟩ := matchesFormat_dig hm
  obtain ⟨r17, rfl, hm⟩ := matchesFormat_lit hm
  obtain ⟨g1, r18, rfl, hg1, hm⟩ := matchesFormat_dig hm
  obtain ⟨g2, r19, rfl, hg2, hm⟩ := matchesFormat_dig hm
  obtain ⟨r20, rfl, hm⟩ := matchesFormat_lit hm
  have hr : r20 = [] := matchesFormat_nil hm
  subst hr
  unfold parseDueAt at hp
  simp only [Option.bind_eq_bind] at hp
  rw [Option.bind_eq_some] at hp
  obtain ⟨⟨y, s1⟩, hy, hp⟩ := hp
  simp [parseYear, hy1, hy2, hy3, hy4] at hy
  obtain ⟨rfl, rfl⟩ := hy
  try simp only [] at hp
  rw [Option.bind_eq_some] at hp
  obtain ⟨s2, hL1, hp⟩ := hp
  simp [matchLit] at hL1
  subst hL1
  try simp only [] at hp
  rw [Option.bind_eq_some] at hp
  obtain ⟨⟨mo, s3⟩, hmo, hp⟩ := hp
  simp [parseField2, hm1, hm2] at hmo
  obtain ⟨hmoR, rfl, rfl⟩ := hmo
  try simp only [] at hp
  rw [Option.bind_eq_some] at hp
  obtain ⟨s4, hL2, hp⟩ := hp
  simp [matchLit] at hL2
  subst hL2
  try simp only [] at hp
  rw [Option.bind_eq_some] at hp
  obtain ⟨⟨d, s5⟩, hd, hp⟩ := hp
  simp [parseField2, hd1, hd2] at hd
  obtain ⟨hdR, rfl, rfl⟩ := hd
  try simp only [] at hp
  rw [Option.bind_eq_some] at hp
  obtain ⟨s6, hL3, hp⟩ := hp
  simp [matchLit] at hL3
  subst hL3
  try simp only [] at hp
  rw [Option.bind_eq_some] at hp
  obtain ⟨⟨h, s7⟩, hh, hp⟩ := hp
  simp [parseField2, he1, he2] at hh
  obtain ⟨hhR, rfl, rfl⟩ := hh
  try simp only [] at hp
  rw [Option.bind_eq_some] at hp
  obtain ⟨s8, hL4, hp⟩ := hp
  simp [matchLit] at hL4
  subst hL4
  try simp only [] at hp
  rw [Option.bind_eq_some] at hp
  obtain ⟨⟨mi, s9⟩, hmi, hp⟩ := hp
  simp [parseField2, hn1, hn2] at hmi
  obtain ⟨hmiR, rfl, rfl⟩ := hmi
  try simp only [] at hp
  rw [Option.bind_eq_some] at hp
  obtain ⟨s10, hL5, hp⟩ := hp
  simp [matchLit] at hL5
  subst hL5
  try simp only [] at hp
  rw [Option.bind_eq_some] at hp
  obtain ⟨⟨se, s11⟩, hse, hp⟩ := hp
  simp [parseField2, hg1, hg2] at hse
  obtain ⟨hseR, rfl, rfl⟩ := hse
  try simp only [] at hp
  rw [Option.bind_eq_some] at hp
  obtain ⟨s12, hL6, hp⟩ := hp
  simp [matchLit] at hL6
  subst hL6
  try simp only [] at hp
  simp at hp
  obtain ⟨-, rfl⟩ := hp
  simp only [DateTime.enc, FORMAT, fdigits, valDigits, List.foldl]
  ring

/-- Among canonical due-date strings that parse, string order is datetime
order. -/
theorem dtLe_of_strNLt {s t : Str} {a b : DateTime}
    (hms : matchesFormat FORMAT s = true) (hmt : matchesFormat FORMAT t = true)
    (h1 : parseDueAt s = some a) (h2 : parseDueAt t = some b)
    (hle : strLt t s = false) : dtLe a b = true := by
  have hea := parse_enc hms h1
  have heb := parse_enc hmt h2
  have hnot : ¬ (valDigits (fdigits FORMAT t) < valDigits (fdigits FORMAT s)) := by
    rw [← strLt_iff_valDigits hmt hms, hle]
    simp
  simp only [dtLe, hea, heb, decide_eq_true_eq]
  omega

/-! ### Container lemmas -/

theorem mem_addToSet {x y : Str} {s : List Str} : x ∈ addToSet s y ↔ x = y ∨ x ∈ s := by
  simp only [addToSet]
  split
  · rename_i hy
    constructor
    · exact Or.inr
    · rintro (rfl | hx)
      · exact hy
      · exact hx
  · simp [List.mem_append, or_comm]

theorem self_mem_addToSet (s : List Str) (x : Str) : x ∈ addToSet s x :=
  mem_addToSet.2 (Or.inl rfl)

theorem subset_addToSet (s : List Str) (x : Str) : s ⊆ addToSet s x :=
  fun _ hy => mem_addToSet.2 (Or.inr hy)

theorem lookupS_setS_preserve {m : List (Str × Str)} {k k2 v v2 : Str}
    (hk : lookupS m k = some v) (hk2 : lookupS m k2 = none) :
    lookupS (setS m k2 v2) k = some v := by
  induction m with
  | nil => simp [lookupS] at hk
  | cons p rest ih =>
    obtain ⟨k1, v1⟩ := p
    simp only [lookupS] at hk hk2
    have h12 : ¬ (k1 = k2) := by
      intro h
      rw [if_pos h] at hk2
      exact Option.noConfusion hk2
    rw [if_neg h12] at hk2
    simp only [setS, if_neg h12, lookupS]
    by_cases h2 : k1 = k
    · rw [if_pos h2] at hk ⊢
      exact hk
    · rw [if_neg h2] at hk ⊢
      exact ih hk hk2

/-! ### Characterizing the filter and the loop body -/

theorem taskFilter_completed {cc : List Str} {now : DateTime} {a : Assignment}
    (h : a.id ∈ cc) : taskFilter cc now a = .SkipCompletedLocally := by
  simp [taskFilter, if_pos h]

theorem taskFilter_submitted {cc : List Str} {now : DateTime} {a : Assignment}
    (h1 : a.id ∉ cc) (h2 : (a.submitted_at.isSome || !(pyTruthy a.due_at)) = true) :
    taskFilter cc now a = .SkipSubmittedOrNoDueDate := by
  simp only [taskFilter, if_neg h1, h2]
  simp

theorem taskFilter_malformed {cc : List Str} {now : DateTime} {a : Assignment}
    (h1 : a.id ∉ cc) (h2 : (a.submitted_at.isSome || !(pyTruthy a.due_at)) = false)
    (h3 : parseDueAt (a.due_at.getD []) = none) :
    taskFilter cc now a = .SkipMalformedDate := by
  have h2n : ¬ ((a.submitted_at.isSome || !(pyTruthy a.due_at)) = true) := by rw [h2]; simp
  simp only [taskFilter, if_neg h1, if_neg h2n, h3]

theorem taskFilter_pastdue {cc : List Str} {now : DateTime} {a : Assignment} {d : DateTime}
    (h1 : a.id ∉ cc) (h2 : (a.submitted_at.isSome || !(pyTruthy a.due_at)) = false)
    (h3 : parseDueAt (a.due_at.getD []) = some d) (h4 : dtLe d now = true) :
    taskFilter cc now a = .SkipPastDue := by
  have h2n : ¬ ((a.submitted_at.isSome || !(pyTruthy a.due_at)) = true) := by rw [h2]; simp
  simp only [taskFilter, if_neg h1, if_neg h2n, h3, h4]
  simp

theorem taskFilter_include {cc : List Str} {now : DateTime} {a : Assignment} {d : DateTime}
    (h1 : a.id ∉ cc) (h2 : (a.submitted_at.isSome || !(pyTruthy a.due_at)) = false)
    (h3 : parseDueAt (a.due_at.getD []) = some d) (h4 : dtLe d now = false) :
    taskFilter cc now a = .Include d := by
  have h2n : ¬ ((a.submitted_at.isSome || !(pyTruthy a.due_at)) = true) := by rw [h2]; simp
  have h4n : ¬ (dtLe d now = true) := by rw [h4]; simp
  simp only [taskFilter, if_neg h1, if_neg h2n, h3, if_neg h4n]

theorem taskFilter_completed_inv {cc : List Str} {now : DateTime} {a : Assignment}
    (h : taskFilter cc now a = .SkipCompletedLocally) : a.id ∈ cc := by
  by_contra h1
  simp only [taskFilter, if_neg h1] at h
  split at h
  · cases h
  · split at h
    · cases h
    · split at h
      · cases h
      · cases h

theorem taskFilter_submitted_inv {cc : List Str} {now : DateTime} {a : Assignment}
    (h : taskFilter cc now a = .SkipSubmittedOrNoDueDate) :
    a.id ∉ cc ∧ (a.submitted_at.isSome || !(pyTruthy a.due_at)) = true := by
  simp only [taskFilter] at h
  split at h
  · cases h
  · rename_i h1
    split at h
    · rename_i h2
      exact ⟨h1, h2⟩
    · split at h
      · cases h
      · split at h
        · cases h
        · cases h

theorem taskFilter_malformed_inv {cc : List Str} {now : DateTime} {a : Assignment}
    (h : taskFilter cc now a = .SkipMalformedDate) :
    a.id ∉ cc ∧ (a.submitted_at.isSome || !(pyTruthy a.due_at)) = false ∧
    parseDueAt (a.due_at.getD []) = none := by
  simp only [taskFilter] at h
  split at h
  · cases h
  · rename_i h1
    split at h
    · cases h
    · rename_i h2
      split at h
      · rename_i h3
        exact ⟨h1, by simpa using h2, h3⟩
      · split at h
        · cases h
        · cases h

theorem taskFilter_pastdue_inv {cc : List Str} {now : DateTime} {a : Assignment}
    (h : taskFilter cc now a = .SkipPastDue) :
    a.id ∉ cc ∧ (a.submitted_at.isSome || !(pyTruthy a.due_at)) = false ∧
    ∃ d, parseDueAt (a.due_at.getD []) = some d ∧ dtLe d now = true := by
  simp only [taskFilter] at h
  split at h
  · cases h
  · rename_i h1
    split at h
    · cases h
    · rename_i h2
      split at h
      · cases h
      · rename_i d hp
        split at h
        · rename_i h4
          exact ⟨h1, by simpa using h2, d, hp, h4⟩
        · cases h

theorem taskFilter_include_inv {cc : List Str} {now : DateTime} {a : Assignment} {d : DateTime}
    (h : taskFilter cc now a = .Include d) :
    a.id ∉ cc ∧ (a.submitted_at.isSome || !(pyTruthy a.due_at)) = false ∧
    parseDueAt (a.due_at.getD []) = some d ∧ dtLe d now = false := by
  simp only [taskFilter] at h
  split at h
  · cases h
  · rename_i h1
    split at h
    · cases h
    · rename_i h2
      split at h
      · cases h
      · rename_i d2 hp
        split at h
        · cases h
        · rename_i h4
          cases h
          exact ⟨h1, by simpa using h2, hp, by simpa using h4⟩

/-- When the filter does not include the task, the loop body is a no-op. -/
theorem processAssignment_eq_skip {co : Collab} {now : DateTime} {cn rl : Str}
    {st : SyncState} {a : Assignment}
    (h : ∀ d, taskFilter st.completion_cache now a ≠ FilterDecision.Include d) :
    processAssignment co now cn rl st a = st := by
  simp only [processAssignment]
  split
  · rfl
  · rename_i h1
    split
    · rfl
    · rename_i h2
      split
      · rfl
      · rename_i d hp
        split
        · rfl
        · rename_i h4
          exact absurd (taskFilter_include h1 (by simpa using h2) hp (by simpa using h4)) (h d)

/-- When the filter includes the task, the loop body performs the full step:
summary lookup, remove-then-create events, completion marking, result append. -/
theorem processAssignment_eq_include {co : Collab} {now : DateTime} {cn rl : Str}
    {st : SyncState} {a : Assignment} {d : DateTime}
    (h : taskFilter st.completion_cache now a = .Include d) :
    processAssignment co now cn rl st a =
      { summary_cache := (if pyTruthy a.description then
            summarize_description co st.summary_cache (a.description.getD []) a.id
          else ⟨[], st.summary_cache, []⟩).cache
        completion_cache := addToSet st.completion_cache a.id
        total_added := st.total_added + 1
        added_by_course := appendCourse st.added_by_course cn
          (a.name.getD ("No Title").data, co.fmtDisplay d)
        all_due_dates := st.all_due_dates ++ [d]
        events := st.events ++ (if pyTruthy a.description then
            summarize_description co st.summary_cache (a.description.getD []) a.id
          else ⟨[], st.summary_cache, []⟩).events ++
          [.removeReminder (a.name.getD ("No Title").data) rl,
           .addReminder (a.name.getD ("No Title").data) (co.fmtApple d) rl
             (if pyTruthy a.description then
                summarize_description co st.summary_cache (a.description.getD []) a.id
              else ⟨[], st.summary_cache, []⟩).text] } := by
  obtain ⟨h1, h2, hp, h4⟩ := taskFilter_include_inv h
  have h2n : ¬ ((a.submitted_at.isSome || !(pyTruthy a.due_at)) = true) := by rw [h2]; simp
  have h4n : ¬ (dtLe d now = true) := by rw [h4]; simp
  simp only [processAssignment, if_neg h1, if_neg h2n, hp, if_neg h4n]

/-! ### Completion-cache growth -/

theorem addToSet_eq_append {s : List Str} {x : Str} (h : x ∉ s) :
    addToSet s x = s ++ [x] := by
  simp [addToSet, if_neg h]

theorem dtLe_trans {a b c : DateTime} (h1 : dtLe a b = true) (h2 : dtLe b c = true) :
    dtLe a c = true := by
  simp only [dtLe, decide_eq_true_eq] at h1 h2 ⊢
  omega

/-- What one loop-body step does to the completion cache: either nothing, or it
appends the task id — a fresh one — and the step also emitted the
remove-then-create reminder events for the task. -/
theorem completion_step (co : Collab) (now : DateTime) (cn rl : Str) (st : SyncState)
    (a : Assignment) :
    processAssignment co now cn rl st a = st ∨
    ((processAssignment co now cn rl st a).completion_cache = st.completion_cache ++ [a.id] ∧
     a.id ∉ st.completion_cache ∧
     ∃ evs title due notes,
       (processAssignment co now cn rl st a).events =
         st.events ++ evs ++ [Event.removeReminder title rl, Event.addReminder title due rl notes]) := by
  cases hf : taskFilter st.completion_cache now a with
  | Include d =>
    right
    obtain ⟨h1, _, _, _⟩ := taskFilter_include_inv hf
    rw [processAssignment_eq_include hf]
    refine ⟨addToSet_eq_append h1, h1, _, _, _, _, rfl⟩
  | SkipCompletedLocally =>
    exact Or.inl (processAssignment_eq_skip (fun d hd => by rw [hf] at hd; cases hd))
  | SkipSubmittedOrNoDueDate =>
    exact Or.inl (processAssignment_eq_skip (fun d hd => by rw [hf] at hd; cases hd))
  | SkipMalformedDate =>
    exact Or.inl (processAssignment_eq_skip (fun d hd => by rw [hf] at hd; cases hd))
  | SkipPastDue =>
    exact Or.inl (processAssignment_eq_skip (fun d hd => by rw [hf] at hd; cases hd))

/-- Across the inner loop, the completion cache only ever gains fresh ids. -/
theorem completion_fold (co : Collab) (now : DateTime) (cn rl : Str) :
    ∀ (l : List Assignment) (st : SyncState),
    ∃ new, (l.foldl (processAssignment co now cn rl) st).completion_cache =
        st.completion_cache ++ new ∧
      new.Nodup ∧ ∀ x ∈ new, x ∉ st.completion_cache
  | [], st => ⟨[], by simp⟩
  | a :: l, st => by
    simp only [List.foldl_cons]
    rcases completion_step co now cn rl st a with heq | ⟨hcc, hfresh, _⟩
    · rw [heq]
      exact completion_fold co now cn rl l st
    · obtain ⟨new, hn, hnd, hns⟩ := completion_fold co now cn rl l (processAssignment co now cn rl st a)
      refine ⟨a.id :: new, ?_, ?_, ?_⟩
      · rw [hn, hcc, List.append_assoc]
        rfl
      · refine List.nodup_cons.2 ⟨fun hmem => ?_, hnd⟩
        have := hns a.id hmem
        rw [hcc] at this
        exact this (List.mem_append.2 (Or.inr (List.mem_singleton.2 rfl)))
      · intro x hx
        rcases List.mem_cons.1 hx with rfl | hx
        · exact hfresh
        · intro hmem
          exact hns x hx (by rw [hcc]; exact List.mem_append.2 (Or.inl hmem))

/-- The course loop body either skips the course whole (unmapped name or falsy
id) or folds the sorted assignment list through the inner loop body. -/
theorem processCourse_eq (co : Collab) (now : DateTime) (st : SyncState) (c : CourseData) :
    ((COURSE_TO_LIST (c.name.getD ("Unnamed Course").data) = none ∨
        pyTruthyInt c.id = false) ∧
      processCourse co now st c = st) ∨
    ∃ rl, COURSE_TO_LIST (c.name.getD ("Unnamed Course").data) = some rl ∧
      pyTruthyInt c.id = true ∧
      processCourse co now st c =
        (courseIterList c).foldl
          (processAssignment co now (c.name.getD ("Unnamed Course").data) rl) st := by
  cases hm : COURSE_TO_LIST (c.name.getD ("Unnamed Course").data) with
  | none => exact Or.inl ⟨Or.inl rfl, by simp [processCourse, hm]⟩
  | some rl =>
    cases hid : pyTruthyInt c.id with
    | false => exact Or.inl ⟨Or.inr rfl, by simp [processCourse, hm, hid]⟩
    | true => exact Or.inr ⟨rl, rfl, rfl, by simp [processCourse, hm, hid]⟩

theorem completion_course (co : Collab) (now : DateTime) (st : SyncState) (c : CourseData) :
    ∃ new, (processCourse co now st c).completion_cache = st.completion_cache ++ new ∧
      new.Nodup ∧ ∀ x ∈ new, x ∉ st.completion_cache := by
  rcases processCourse_eq co now st c with ⟨_, heq⟩ | ⟨rl, _, _, heq⟩
  · rw [heq]
    exact ⟨[], by simp⟩
  · rw [heq]
    exact completion_fold co now _ rl (courseIterList c) st

theorem completion_run (co : Collab) (now : DateTime) :
    ∀ (favs : List CourseData) (st : SyncState),
    ∃ new, (favs.foldl (processCourse co now) st).completion_cache =
        st.completion_cache ++ new ∧
      new.Nodup ∧ ∀ x ∈ new, x ∉ st.completion_cache
  | [], st => ⟨[], by simp⟩
  | c :: favs, st => by
    simp only [List.foldl_cons]
    obtain ⟨n1, h1, hnd1, hns1⟩ := completion_course co now st c
    obtain ⟨n2, h2, hnd2, hns2⟩ := completion_run co now favs (processCourse co now st c)
    refine ⟨n1 ++ n2, ?_, ?_, ?_⟩
    · rw [h2, h1, List.append_assoc]
    · refine List.Nodup.append hnd1 hnd2 (fun x hx1 hx2 => ?_)
      have := hns2 x hx2
      rw [h1] at this
      exact this (List.mem_append.2 (Or.inr hx1))
    · intro x hx
      rcases List.mem_append.1 hx with hx | hx
      · exact hns1 x hx
      · intro hmem
        exact hns2 x hx (by rw [h1]; exact List.mem_append.2 (Or.inl hmem))

theorem fold_cc_subset (co : Collab) (now : DateTime) (cn rl : Str)
    (l : List Assignment) (st : SyncState) :
    st.completion_cache ⊆ (l.foldl (processAssignment co now cn rl) st).completion_cache := by
  obtain ⟨new, h, _, _⟩ := completion_fold co now cn rl l st
  rw [h]
  exact List.subset_append_left _ _

theorem favs_cc_subset (co : Collab) (now : DateTime)
    (favs : List CourseData) (st : SyncState) :
    st.completion_cache ⊆ (favs.foldl (processCourse co now) st).completion_cache := by
  obtain ⟨new, h, _, _⟩ := completion_run co now favs st
  rw [h]
  exact List.subset_append_left _ _

/-! ### Which tasks can ever be added again -/

theorem skip_of_mem {co : Collab} {now : DateTime} {cn rl : Str} {st : SyncState}
    {a : Assignment} (h : a.id ∈ st.completion_cache) :
    processAssignment co now cn rl st a = st :=
  processAssignment_eq_skip (fun d hd => by rw [taskFilter_completed h] at hd; cases hd)

theorem skip_of_persistent {co : Collab} {now now2 : DateTime} {cn rl : Str}
    {st : SyncState} {a : Assignment}
    (hp : persistentSkip now a) (hmono : dtLe now now2 = true) :
    processAssignment co now2 cn rl st a = st := by
  apply processAssignment_eq_skip
  intro d hd
  obtain ⟨h1, h2, hparse, h4⟩ := taskFilter_include_inv hd
  rcases hp with hc | hc | ⟨d2, hp2, hle2⟩
  · rw [hc] at h2
    cases h2
  · rw [hc] at hparse
    cases hparse
  · rw [hp2] at hparse
    have hd2 : d2 = d := Option.some.inj hparse
    subst hd2
    rw [dtLe_trans hle2 hmono] at h4
    cases h4

theorem step_mem_or_skip (co : Collab) (now : DateTime) (cn rl : Str)
    (st : SyncState) (a : Assignment) :
    a.id ∈ (processAssignment co now cn rl st a).completion_cache ∨ persistentSkip now a := by
  cases hf : taskFilter st.completion_cache now a with
  | Include d =>
    left
    rw [processAssignment_eq_include hf]
    exact self_mem_addToSet _ _
  | SkipCompletedLocally =>
    left
    rw [processAssignment_eq_skip (fun d hd => by rw [hf] at hd; cases hd)]
    exact taskFilter_completed_inv hf
  | SkipSubmittedOrNoDueDate =>
    exact Or.inr (Or.inl (taskFilter_submitted_inv hf).2)
  | SkipMalformedDate =>
    exact Or.inr (Or.inr (Or.inl (taskFilter_malformed_inv hf).2.2))
  | SkipPastDue =>
    exact Or.inr (Or.inr (Or.inr (taskFilter_pastdue_inv hf).2.2))

theorem fold_mem_or_skip (co : Collab) (now : DateTime) (cn rl : Str) :
    ∀ (l : List Assignment) (st : SyncState) (a : Assignment), a ∈ l →
    a.id ∈ (l.foldl (processAssignment co now cn rl) st).completion_cache ∨
      persistentSkip now a
  | [], _, _, ha => absurd ha (List.not_mem_nil _)
  | b :: l, st, a, ha => by
    simp only [List.foldl_cons]
    rcases List.mem_cons.1 ha with rfl | ha
    · rcases step_mem_or_skip co now cn rl st a with hm | hp
      · exact Or.inl (fold_cc_subset co now cn rl l _ hm)
      · exact Or.inr hp
    · exact fold_mem_or_skip co now cn rl l _ a ha

theorem course_mem_or_skip (co : Collab) (now : DateTime) (st : SyncState)
    (c : CourseData) (a : Assignment) (ha : a ∈ courseIterList c) (hp : coursePasses c) :
    a.id ∈ (processCourse co now st c).completion_cache ∨ persistentSkip now a := by
  obtain ⟨hmap, hid⟩ := hp
  rcases processCourse_eq co now st c with ⟨hno, _⟩ | ⟨rl, _, _, heq⟩
  · rcases hno with hno | hno
    · rw [hno] at hmap
      cases hmap
    · rw [hno] at hid
      cases hid
  · rw [heq]
    exact fold_mem_or_skip co now _ rl (courseIterList c) st a ha

theorem course_cc_subset (co : Collab) (now : DateTime) (st : SyncState) (c : CourseData) :
    st.completion_cache ⊆ (processCourse co now st c).completion_cache := by
  obtain ⟨new, h, _, _⟩ := completion_course co now st c
  rw [h]
  exact List.subset_append_left _ _

theorem run_mem_or_skip (co : Collab) (now : DateTime) :
    ∀ (favs : List CourseData) (st : SyncState) (c : CourseData) (a : Assignment),
    c ∈ favs → a ∈ courseIterList c → coursePasses c →
    a.id ∈ (favs.foldl (processCourse co now) st).completion_cache ∨ persistentSkip now a
  | [], _, _, _, hc, _, _ => absurd hc (List.not_mem_nil _)
  | c2 :: favs, st, c, a, hc, ha, hp => by
    simp only [List.foldl_cons]
    rcases List.mem_cons.1 hc with rfl | hc
    · rcases course_mem_or_skip co now st c a ha hp with hm | hps
      · exact Or.inl (favs_cc_subset co now favs _ hm)
      · exact Or.inr hps
    · exact run_mem_or_skip co now favs _ c a hc ha hp

/-! ### A run in which every task is skipped is a no-op -/

theorem fold_eq_of_skip (co : Collab) (now : DateTime) (cn rl : Str) :
    ∀ (l : List Assignment) (st : SyncState),
    (∀ a ∈ l, processAssignment co now cn rl st a = st) →
    l.foldl (processAssignment co now cn rl) st = st
  | [], _, _ => rfl
  | a :: l, st, h => by
    simp only [List.foldl_cons]
    rw [h a (List.mem_cons.2 (Or.inl rfl))]
    exact fold_eq_of_skip co now cn rl l st (fun x hx => h x (List.mem_cons.2 (Or.inr hx)))

theorem course_eq_of_skip (co : Collab) (now : DateTime) (st : SyncState) (c : CourseData)
    (h : coursePasses c → ∀ cn rl, ∀ a ∈ courseIterList c,
      processAssignment co now cn rl st a = st) :
    processCourse co now st c = st := by
  rcases processCourse_eq co now st c with ⟨_, heq⟩ | ⟨rl, hm, hid, heq⟩
  · exact heq
  · rw [heq]
    exact fold_eq_of_skip co now _ rl (courseIterList c) st
      (h ⟨by rw [hm]; rfl, hid⟩ _ rl)

theorem run_eq_of_skip (co : Collab) (now : DateTime) :
    ∀ (favs : List CourseData) (st : SyncState),
    (∀ c ∈ favs, coursePasses c → ∀ cn rl, ∀ a ∈ courseIterList c,
      processAssignment co now cn rl st a = st) →
    favs.foldl (processCourse co now) st = st
  | [], _, _ => rfl
  | c :: favs, st, h => by
    simp only [List.foldl_cons]
    rw [course_eq_of_skip co now st c (h c (List.mem_cons.2 (Or.inl rfl)))]
    exact run_eq_of_skip co now favs st
      (fun c2 hc2 => h c2 (List.mem_cons.2 (Or.inr hc2)))

/-! ### The claims -/

/-- C1: Idempotence across runs — if reconciliation runs twice over identical
remote course data, with the caches produced by the first run carried into the
second and the clock not moving backwards, then the second run adds zero new
reminders: its `total_added` is `0` (and its whole state is untouched). -/
theorem c1_idempotent_second_run (co co2 : Collab) (now now2 : DateTime)
    (lc lc2 : LoadedCaches) (favs : List CourseData)
    (hmono : dtLe now now2 = true)
    (hcc : lc2.completion_cache = (runSync co now lc favs).completion_cache) :
    (runSync co2 now2 lc2 favs).total_added = 0 := by
  have hrun : runSync co2 now2 lc2 favs = initialState lc2 := by
    apply run_eq_of_skip
    intro c hc hpass cn rl a ha
    rcases run_mem_or_skip co now favs (initialState lc) c a hc ha hpass with hm | hp
    · apply skip_of_mem
      show a.id ∈ lc2.completion_cache
      rw [hcc]
      exact hm
    · exact skip_of_persistent hp hmono
  rw [hrun]
  rfl

/-- Witness for C1 at concrete data: the first run over one mapped course with
two open future assignments adds two reminders; rerunning a day later with the
caches it produced adds zero. -/
theorem c1_witness :
    (runSync exCollab exNow exLC [exCourse]).total_added = 2 ∧
    dtLe exNow exNow2 = true ∧
    (runSync exCollab exNow2
      ⟨(runSync exCollab exNow exLC [exCourse]).summary_cache, [],
       (runSync exCollab exNow exLC [exCourse]).completion_cache⟩
      [exCourse]).total_added = 0 :=
  ⟨by decide, by decide,
    c1_idempotent_second_run exCollab exCollab exNow exNow2 exLC _ [exCourse] (by decide) rfl⟩

/-- C2: the task-filter policy, in source order — (1) an id in the completion
cache is skipped regardless of anything else, so the locally-completed check
precedes all date parsing; (2) otherwise a submitted task or a falsy `due_at`
is skipped; (3) otherwise an unparseable `due_at` is dropped silently;
(4) otherwise a due time `≤ now` is skipped; (5) otherwise the task is
included, carrying the parsed UTC due timestamp; and whenever the decision is
not `Include`, the loop body leaves the state untouched. -/
theorem c2_task_filter_policy (cc : List Str) (now : DateTime) (a : Assignment) :
    (a.id ∈ cc → taskFilter cc now a = .SkipCompletedLocally) ∧
    (a.id ∉ cc → (a.submitted_at.isSome = true ∨ pyTruthy a.due_at = false) →
      taskFilter cc now a = .SkipSubmittedOrNoDueDate) ∧
    (a.id ∉ cc → a.submitted_at.isSome = false → pyTruthy a.due_at = true →
      parseDueAt (a.due_at.getD []) = none → taskFilter cc now a = .SkipMalformedDate) ∧
    (∀ d, a.id ∉ cc → a.submitted_at.isSome = false → pyTruthy a.due_at = true →
      parseDueAt (a.due_at.getD []) = some d → dtLe d now = true →
      taskFilter cc now a = .SkipPastDue) ∧
    (∀ d, a.id ∉ cc → a.submitted_at.isSome = false → pyTruthy a.due_at = true →
      parseDueAt (a.due_at.getD []) = some d → dtLe d now = false →
      taskFilter cc now a = .Include d) ∧
    (∀ (co : Collab) (cn rl : Str) (st : SyncState), st.completion_cache = cc →
      (∀ d, taskFilter cc now a ≠ .Include d) →
      processAssignment co now cn rl st a = st) := by
  refine ⟨taskFilter_completed, ?_, ?_, ?_, ?_, ?_⟩
  · intro h1 h2
    apply taskFilter_submitted h1
    rcases h2 with h2 | h2 <;> simp [h2]
  · intro h1 h2 h3 h4
    apply taskFilter_malformed h1 _ h4
    simp [h2, h3]
  · intro d h1 h2 h3 h4 h5
    apply taskFilter_pastdue h1 _ h4 h5
    simp [h2, h3]
  · intro d h1 h2 h3 h4 h5
    apply taskFilter_include h1 _ h4 h5
    simp [h2, h3]
  · intro co cn rl st hst h
    subst hst
    exact processAssignment_eq_skip h

/-- Witness for C2: on concrete data, a task whose id is in the completion
cache is skipped as locally completed even though it is submitted-free and
future-due, and a submitted copy is skipped as submitted. -/
theorem c2_witness :
    taskFilter [("101").data] exNow exAssign = .SkipCompletedLocally ∧
    taskFilter [] exNow { exAssign with submitted_at := some ("2024-04-30T10:00:00Z").data }
      = .SkipSubmittedOrNoDueDate :=
  ⟨(c2_task_filter_policy [("101").data] exNow exAssign).1 (by decide),
   (c2_task_filter_policy [] exNow _).2.1 (by decide) (Or.inl (by decide))⟩

/-- C3: within a run the completion cache only grows — the final cache is the
loaded cache plus a duplicate-free list of fresh ids — and at each step the id
is appended, at most once, only together with that task's remove-then-create
reminder events. -/
theorem c3_completion_cache_monotone (co : Collab) (now : DateTime) (lc : LoadedCaches)
    (favs : List CourseData) :
    (∃ new, (runSync co now lc favs).completion_cache = lc.completion_cache ++ new ∧
      new.Nodup ∧ ∀ x ∈ new, x ∉ lc.completion_cache) ∧
    (∀ cn rl (st : SyncState) a,
      processAssignment co now cn rl st a = st ∨
      ((processAssignment co now cn rl st a).completion_cache = st.completion_cache ++ [a.id] ∧
       a.id ∉ st.completion_cache ∧
       ∃ evs title due notes,
         (processAssignment co now cn rl st a).events =
           st.events ++ evs ++ [Event.removeReminder title rl, Event.addReminder title due rl notes])) :=
  ⟨completion_run co now favs (initialState lc),
   fun cn rl st a => completion_step co now cn rl st a⟩

/-- Witness for C3 at concrete data: the concrete run's final completion cache
extends the loaded one by fresh, duplicate-free ids. -/
theorem c3_witness :
    (runSync exCollab exNow exLC [exCourse]).completion_cache =
      [("102").data, ("101").data] ∧
    (∃ new, (runSync exCollab exNow exLC [exCourse]).completion_cache =
      exLC.completion_cache ++ new ∧ new.Nodup ∧ ∀ x ∈ new, x ∉ exLC.completion_cache) :=
  ⟨by decide, (c3_completion_cache_monotone exCollab exNow exLC [exCourse]).1⟩

/-- C5: for every included task the id is marked complete after the
remove-then-create reminder events are emitted, with no inspection of the
reminder provider's exit status — the run is identical under any `osascript`
result — and a task whose id is in the completion cache is never processed
again. -/
theorem c5_unconditional_completion (co : Collab) (now : DateTime) (cn rl : Str)
    (st : SyncState) (a : Assignment) (d : DateTime)
    (h : taskFilter st.completion_cache now a = .Include d) :
    a.id ∈ (processAssignment co now cn rl st a).completion_cache ∧
    (∀ f, processAssignment { co with osaResult := f } now cn rl st a =
      processAssignment co now cn rl st a) ∧
    (∃ evs notes,
      (processAssignment co now cn rl st a).events =
        st.events ++ evs ++
          [Event.removeReminder (a.name.getD ("No Title").data) rl,
           Event.addReminder (a.name.getD ("No Title").data) (co.fmtApple d) rl notes]) ∧
    (∀ st2 : SyncState, a.id ∈ st2.completion_cache →
      processAssignment co now cn rl st2 a = st2) := by
  refine ⟨?_, ?_, ?_, ?_⟩
  · rw [processAssignment_eq_include h]
    exact self_mem_addToSet _ _
  · intro f
    rw [processAssignment_eq_include h, processAssignment_eq_include h]
    rfl
  · rw [processAssignment_eq_include h]
    exact ⟨_, _, rfl⟩
  · intro st2 h2
    exact skip_of_mem h2

/-- Witness for C5 at concrete data: the sample assignment is included, and
after processing its id is in the completion cache. -/
theorem c5_witness :
    taskFilter ([] : List Str) exNow exAssign = .Include ⟨2099, 6, 13, 20, 0, 0⟩ ∧
    ("101").data ∈ (processAssignment exCollab exNow (("P").data) (("15-150").data)
      (initialState exLC) exAssign).completion_cache :=
  ⟨by decide,
   (c5_unconditional_completion exCollab exNow (("P").data) (("15-150").data)
     (initialState exLC) exAssign ⟨2099, 6, 13, 20, 0, 0⟩ (by decide)).1⟩

/-- C6 counterexample: the claim says a cache load never raises and a failure
loading one cache does not block the others; in the code an existing but
unreadable cache file raises out of `main`, and because the three loads run in
sequence it also prevents the later caches from being loaded. -/
theorem c6_counterexample :
    load_cache (some (none : Option (List (Str × Str)))) ([] : List (Str × Str)) =
      Except.error () ∧
    load_all_caches (some none) (some (some [(("k").data, ("v").data)])) (some (some [])) =
      Except.error () :=
  ⟨rfl, rfl⟩

/-- C6 as amended: a load returns the empty container when the backing file is
absent and the parsed content when it is readable; but when the file exists
and is unreadable the load raises, and a raise in an earlier load aborts the
later loads (summaries, then strategies, then completions). -/
theorem c6_load_contract :
    (∀ (e : List (Str × Str)), load_cache none e = Except.ok e) ∧
    (∀ (e v : List (Str × Str)), load_cache (some (some v)) e = Except.ok v) ∧
    (∀ (e : List (Str × Str)), load_cache (some none) e = Except.error ()) ∧
    (∀ s2 s3, load_all_caches (some none) s2 s3 = Except.error ()) ∧
    (∀ v1 s3, load_all_caches (some (some v1)) (some none) s3 = Except.error ()) ∧
    (∀ v1 v2 v3, load_all_caches (some (some v1)) (some (some v2)) (some (some v3)) =
      Except.ok ⟨v1, v2, v3⟩) ∧
    load_all_caches none none none = Except.ok ⟨[], [], []⟩ :=
  ⟨fun _ => rfl, fun _ _ => rfl, fun _ => rfl, fun _ _ => rfl, fun _ _ => rfl,
   fun _ _ _ => rfl, rfl⟩

/-! ### Summary-cache preservation -/

theorem strNLt_nil {s : Str} (h : strLt [] s = false) : s = [] := by
  cases s with
  | nil => rfl
  | cons c t => simp [strLt] at h

theorem summarize_cache_preserve {co : Collab} {cache : List (Str × Str)}
    {desc id_ k v : Str} (hk : lookupS cache k = some v) :
    lookupS (summarize_description co cache desc id_).cache k = some v := by
  simp only [summarize_description]
  cases hl : lookupS cache id_ with
  | some s => exact hk
  | none =>
    cases hc : co.ollamaChat (promptText desc) with
    | some content => exact lookupS_setS_preserve hk hl
    | none => exact hk

theorem processAssignment_summary_preserve {co : Collab} {now : DateTime} {cn rl k v : Str}
    {st : SyncState} {a : Assignment}
    (hk : lookupS st.summary_cache k = some v) :
    lookupS (processAssignment co now cn rl st a).summary_cache k = some v := by
  cases hf : taskFilter st.completion_cache now a with
  | Include d =>
    rw [processAssignment_eq_include hf]
    by_cases hd : pyTruthy a.description = true
    · rw [if_pos hd]
      exact summarize_cache_preserve hk
    · rw [if_neg hd]
      exact hk
  | SkipCompletedLocally =>
    rw [processAssignment_eq_skip (fun d hd => by rw [hf] at hd; cases hd)]
    exact hk
  | SkipSubmittedOrNoDueDate =>
    rw [processAssignment_eq_skip (fun d hd => by rw [hf] at hd; cases hd)]
    exact hk
  | SkipMalformedDate =>
    rw [processAssignment_eq_skip (fun d hd => by rw [hf] at hd; cases hd)]
    exact hk
  | SkipPastDue =>
    rw [processAssignment_eq_skip (fun d hd => by rw [hf] at hd; cases hd)]
    exact hk

theorem fold_summary_preserve (co : Collab) (now : DateTime) (cn rl : Str) :
    ∀ (l : List Assignment) (st : SyncState) (k v : Str),
    lookupS st.summary_cache k = some v →
    lookupS ((l.foldl (processAssignment co now cn rl)) st).summary_cache k = some v
  | [], _, _, _, hk => hk
  | a :: l, st, k, v, hk => by
    simp only [List.foldl_cons]
    exact fold_summary_preserve co now cn rl l _ k v (processAssignment_summary_preserve hk)

theorem course_summary_preserve {co : Collab} {now : DateTime} {st : SyncState}
    {c : CourseData} {k v : Str} (hk : lookupS st.summary_cache k = some v) :
    lookupS (processCourse co now st c).summary_cache k = some v := by
  rcases processCourse_eq co now st c with ⟨_, heq⟩ | ⟨rl, _, _, heq⟩
  · rw [heq]
    exact hk
  · rw [heq]
    exact fold_summary_preserve co now _ rl (courseIterList c) st k v hk

theorem run_summary_preserve (co : Collab) (now : DateTime) :
    ∀ (favs : List CourseData) (st : SyncState) (k v : Str),
    lookupS st.summary_cache k = some v →
    lookupS ((favs.foldl (processCourse co now)) st).summary_cache k = some v
  | [], _, _, _, hk => hk
  | c :: favs, st, k, v, hk => by
    simp only [List.foldl_cons]
    exact run_summary_preserve co now favs _ k v (course_summary_preserve hk)

/-- C7: for an included task with a description, when the summarization
collaborator fails the engine records nothing in the summary cache, still
emits the remove-then-create reminder events with empty notes, still marks the
task complete, and still counts it — the failure is not fatal. -/
theorem c7_summarizer_failure_degrades (co : Collab) (now : DateTime) (cn rl : Str)
    (st : SyncState) (a : Assignment) (d : DateTime)
    (hf : taskFilter st.completion_cache now a = .Include d)
    (hdesc : pyTruthy a.description = true)
    (hmiss : lookupS st.summary_cache a.id = none)
    (hfail : co.ollamaChat (promptText (a.description.getD [])) = none) :
    (processAssignment co now cn rl st a).summary_cache = st.summary_cache ∧
    (processAssignment co now cn rl st a).events =
      st.events ++ [Event.summarizeCall (promptText (a.description.getD []))] ++
        [Event.removeReminder (a.name.getD ("No Title").data) rl,
         Event.addReminder (a.name.getD ("No Title").data) (co.fmtApple d) rl []] ∧
    a.id ∈ (processAssignment co now cn rl st a).completion_cache ∧
    (processAssignment co now cn rl st a).total_added = st.total_added + 1 := by
  have hsum : summarize_description co st.summary_cache (a.description.getD []) a.id =
      ⟨[], st.summary_cache, [Event.summarizeCall (promptText (a.description.getD []))]⟩ := by
    simp only [summarize_description, hmiss, hfail]
  rw [processAssignment_eq_include hf, if_pos hdesc, hsum]
  exact ⟨rfl, rfl, self_mem_addToSet _ _, rfl⟩

/-- Witness for C7 at concrete data: with the failing summarizer, the sample
described assignment still gets its reminder events, is marked complete, and
leaves the summary cache empty. -/
theorem c7_witness :
    pyTruthy exAssign2.description = true ∧
    exCollab.ollamaChat (promptText (exAssign2.description.getD [])) = none ∧
    (processAssignment exCollab exNow (("P").data) (("15-150").data)
      (initialState exLC) exAssign2).summary_cache = [] ∧
    ("102").data ∈ (processAssignment exCollab exNow (("P").data) (("15-150").data)
      (initialState exLC) exAssign2).completion_cache :=
  ⟨by decide, rfl,
   (c7_summarizer_failure_degrades exCollab exNow (("P").data) (("15-150").data)
     (initialState exLC) exAssign2 ⟨2099, 6, 12, 20, 0, 0⟩
     (by decide) (by decide) (by decide) rfl).1,
   (c7_summarizer_failure_degrades exCollab exNow (("P").data) (("15-150").data)
     (initialState exLC) exAssign2 ⟨2099, 6, 12, 20, 0, 0⟩
     (by decide) (by decide) (by decide) rfl).2.2.1⟩

/-- C8: a summary-cache hit short-circuits — the cached entry is returned
unchanged and the summarization collaborator is not invoked (no
`summarizeCall` event) — and an entry, once present, is never overwritten by
any summarization call nor across a whole run. -/
theorem c8_summary_cache_hit (co : Collab) (cache : List (Str × Str)) (desc id_ s : Str)
    (h : lookupS cache id_ = some s) :
    summarize_description co cache desc id_ = ⟨s, cache, []⟩ ∧
    (∀ (co2 : Collab) (cache2 : List (Str × Str)) (d2 i2 k v : Str),
      lookupS cache2 k = some v →
      lookupS (summarize_description co2 cache2 d2 i2).cache k = some v) ∧
    (∀ (co2 : Collab) (now : DateTime) (lc : LoadedCaches) (favs : List CourseData) (k v : Str),
      lookupS lc.summary_cache k = some v →
      lookupS (runSync co2 now lc favs).summary_cache k = some v) := by
  refine ⟨?_, ?_, ?_⟩
  · simp only [summarize_description, h]
  · intro co2 cache2 d2 i2 k v hk
    exact summarize_cache_preserve hk
  · intro co2 now lc favs k v hk
    exact run_summary_preserve co2 now favs (initialState lc) k v hk

/-- Witness for C8 at concrete data: a hit returns the cached text with no
collaborator call even though the collaborator would have answered. -/
theorem c8_witness :
    summarize_description exCollabOk [(("101").data, ("Cached.").data)]
      (("some description").data) (("101").data) =
      ⟨("Cached.").data, [(("101").data, ("Cached.").data)], []⟩ :=
  (c8_summary_cache_hit exCollabOk [(("101").data, ("Cached.").data)]
    (("some description").data) (("101").data) (("Cached.").data) (by decide)).1

/-- C4 counterexample: two reconciled result sets with different
(course → pairs) content — one course holding both pairs versus the pairs
split across two courses — produce the identical plan-cache key, because the
key ignores course boundaries; so differing content does not guarantee
differing keys. -/
theorem c4_key_counterexample :
    buildCacheKey [(("A").data, [(("t1").data, ("06/13/2099").data)]),
                   (("B").data, [(("t2").data, ("06/14/2099").data)])] =
      buildCacheKey [(("A").data, [(("t1").data, ("06/13/2099").data),
                                   (("t2").data, ("06/14/2099").data)])] ∧
    [(("A").data, [(("t1").data, ("06/13/2099").data)]),
     (("B").data, [(("t2").data, ("06/14/2099").data)])] ≠
      [(("A").data, [(("t1").data, ("06/13/2099").data),
                     (("t2").data, ("06/14/2099").data)])] :=
  ⟨by decide, by decide⟩

/-- C4 as amended: the key is deterministic in the concatenated (title, due)
sequence — identical content in identical order yields identical keys (indeed
the key depends only on the flattened pair sequence) — but distinctness for
differing content or order is not guaranteed, since the key ignores course
boundaries. -/
theorem c4_key_deterministic (m1 m2 : List (Str × List (Str × Str)))
    (h : (m1.map Prod.snd).flatten = (m2.map Prod.snd).flatten) :
    buildCacheKey m1 = buildCacheKey m2 := by
  simp only [buildCacheKey, h]

/-- Witness for C4 at concrete data: the two groupings above have equal
flattened content, and the amended theorem yields equal keys. -/
theorem c4_witness :
    (([(("A").data, [(("t1").data, ("06/13/2099").data)]),
       (("B").data, [(("t2").data, ("06/14/2099").data)])].map Prod.snd).flatten =
     ([(("A").data, [(("t1").data, ("06/13/2099").data),
                     (("t2").data, ("06/14/2099").data)])].map Prod.snd).flatten) ∧
    buildCacheKey [(("A").data, [(("t1").data, ("06/13/2099").data)]),
                   (("B").data, [(("t2").data, ("06/14/2099").data)])] =
      buildCacheKey [(("A").data, [(("t1").data, ("06/13/2099").data),
                                   (("t2").data, ("06/14/2099").data)])] :=
  ⟨by decide, c4_key_deterministic _ _ (by decide)⟩

/-- C9 (amended): processing order — the per-course iteration list is the
fetched assignment list stably sorted by the raw string key `due_at or ""`,
so keys are non-descending as strings and absent due dates come first; the
course loop body folds exactly over that list, and courses are iterated in
the order the remote source returns them. Parsed due dates ascend only when
the due_at strings are in the canonical zero-padded form of the format
(`matchesFormat FORMAT`): since strptime also accepts non-padded and
lower-case variants, the raw string sort does not order those by date (see
`c9_counterexample`). -/
theorem c9_processing_order (c : CourseData) :
    List.Pairwise keyLeR (courseIterList c) ∧
    List.Pairwise (fun a b => ∀ da db,
      matchesFormat FORMAT (sortKey a) = true →
      matchesFormat FORMAT (sortKey b) = true →
      parseDueAt (sortKey a) = some da →
      parseDueAt (sortKey b) = some db → dtLe da db = true) (courseIterList c) ∧
    List.Pairwise (fun a b => sortKey b = [] → sortKey a = []) (courseIterList c) ∧
    (∀ (co : Collab) (now : DateTime) (st : SyncState) (rl : Str),
      COURSE_TO_LIST (c.name.getD ("Unnamed Course").data) = some rl →
      pyTruthyInt c.id = true →
      processCourse co now st c =
        (courseIterList c).foldl
          (processAssignment co now (c.name.getD ("Unnamed Course").data) rl) st) ∧
    (∀ (co : Collab) (now : DateTime) (st : SyncState) (favs1 favs2 : List CourseData),
      (favs1 ++ favs2).foldl (processCourse co now) st =
        favs2.foldl (processCourse co now) (favs1.foldl (processCourse co now) st)) := by
  have hpair : List.Pairwise keyLeR (courseIterList c) := by
    unfold courseIterList
    cases c.assignments with
    | none => exact List.Pairwise.nil
    | some l =>
      show List.Pairwise keyLeR (if l.isEmpty = true then [] else sortAssignments l)
      by_cases he : l.isEmpty = true
      · rw [if_pos he]
        exact List.Pairwise.nil
      · rw [if_neg he]
        exact pairwise_sortAssignments l
  refine ⟨hpair, ?_, ?_, ?_, ?_⟩
  · refine hpair.imp ?_
    intro a b hab da db hma hmb hda hdb
    exact dtLe_of_strNLt hma hmb hda hdb hab
  · refine hpair.imp ?_
    intro a b hab hb
    apply strNLt_nil
    rw [← hb]
    exact hab
  · intro co now st rl hm hid
    rcases processCourse_eq co now st c with ⟨hno, _⟩ | ⟨rl2, hm2, _, heq⟩
    · rcases hno with hno | hno
      · rw [hno] at hm
        cases hm
      · rw [hno] at hid
        cases hid
    · rw [heq]
      rw [hm] at hm2
      rw [Option.some.inj hm2]
  · intro co now st favs1 favs2
    exact List.foldl_append _ _ _ _

/-- Witness for C9 at concrete data: the sample course's two assignments,
fetched in reverse due order, are iterated earliest-due first, the iteration
list is key-sorted, and the course body folds over it. -/
theorem c9_witness :
    courseIterList exCourse = [exAssign2, exAssign] ∧
    List.Pairwise keyLeR (courseIterList exCourse) ∧
    processCourse exCollab exNow (initialState exLC) exCourse =
      (courseIterList exCourse).foldl
        (processAssignment exCollab exNow
          (("Principles of Functional Programming").data) (("15-150").data))
        (initialState exLC) :=
  ⟨by decide, (c9_processing_order exCourse).1,
   (c9_processing_order exCourse).2.2.2.1 exCollab exNow (initialState exLC)
     (("15-150").data) (by decide) (by decide)⟩

/-- Counterexample to C9 as claimed: strptime also accepts a non-zero-padded
month, and the raw `due_at` string sort then orders due dates descending.
The sample course's two assignments are due 2099-10-01 and 2099-9-01; the
string "2099-10-01T00:00:00Z" sorts before "2099-9-01T00:00:00Z", so the
October task is iterated first, both pass the filter with their parsed due
dates, and the first parsed date is strictly after the second. -/
theorem c9_counterexample :
    courseIterList exCourse910 = [exAssignOct, exAssignSep] ∧
    taskFilter [] exNow exAssignOct = .Include ⟨2099, 10, 1, 0, 0, 0⟩ ∧
    taskFilter [] exNow exAssignSep = .Include ⟨2099, 9, 1, 0, 0, 0⟩ ∧
    dtLe ⟨2099, 10, 1, 0, 0, 0⟩ ⟨2099, 9, 1, 0, 0, 0⟩ = false := by
  decide

/-! ### Word and whitespace lemmas for the summary post-processing -/

theorem lookupS_setS_self : ∀ (m : List (Str × Str)) (k v : Str),
    lookupS (setS m k v) k = some v
  | [], k, v => by simp [setS, lookupS]
  | (k1, v1) :: rest, k, v => by
    simp only [setS]
    by_cases h : k1 = k
    · rw [if_pos h]
      simp [lookupS, h]
    · rw [if_neg h]
      simp only [lookupS, if_neg h]
      exact lookupS_setS_self rest k v

theorem mem_pyStrip {c : Char} {s : Str} (h : c ∈ pyStrip s) : c ∈ s := by
  simp only [pyStrip] at h
  rw [List.mem_reverse] at h
  have h2 := (List.dropWhile_sublist _).subset h
  rw [List.mem_reverse] at h2
  exact (List.dropWhile_sublist _).subset h2

theorem pyWordsAux_good : ∀ (s cur : Str), (∀ ch ∈ cur, pyIsSpace ch = false) →
    ∀ w ∈ pyWordsAux cur s, w ≠ [] ∧ ∀ ch ∈ w, pyIsSpace ch = false
  | [], cur, hcur, w, hw => by
    simp only [pyWordsAux] at hw
    split at hw
    · simp at hw
    · rename_i hne
      rw [List.mem_singleton] at hw
      subst hw
      refine ⟨fun hc => ?_, fun ch hch => hcur ch (List.mem_reverse.1 hch)⟩
      rw [List.reverse_eq_nil_iff] at hc
      rw [hc] at hne
      exact hne rfl
  | c :: s, cur, hcur, w, hw => by
    simp only [pyWordsAux] at hw
    split at hw
    · split at hw
      · exact pyWordsAux_good s [] (by simp) w hw
      · rename_i hsp hne
        rcases List.mem_cons.1 hw with rfl | hw
        · refine ⟨fun hc => ?_, fun ch hch => hcur ch (List.mem_reverse.1 hch)⟩
          rw [List.reverse_eq_nil_iff] at hc
          rw [hc] at hne
          exact hne rfl
        · exact pyWordsAux_good s [] (by simp) w hw
    · rename_i hsp
      refine pyWordsAux_good s (c :: cur) ?_ w hw
      intro ch hch
      rcases List.mem_cons.1 hch with rfl | hch
      · simpa using hsp
      · exact hcur ch hch

theorem pyWordsAux_chars : ∀ (s cur w : Str), w ∈ pyWordsAux cur s →
    ∀ ch ∈ w, ch ∈ cur ∨ ch ∈ s
  | [], cur, w, hw, ch, hch => by
    simp only [pyWordsAux] at hw
    split at hw
    · simp at hw
    · rw [List.mem_singleton] at hw
      subst hw
      exact Or.inl (List.mem_reverse.1 hch)
  | c :: s, cur, w, hw, ch, hch => by
    simp only [pyWordsAux] at hw
    split at hw
    · split at hw
      · rcases pyWordsAux_chars s [] w hw ch hch with h | h
        · simp at h
        · exact Or.inr (List.mem_cons.2 (Or.inr h))
      · rcases List.mem_cons.1 hw with rfl | hw
        · exact Or.inl (List.mem_reverse.1 hch)
        · rcases pyWordsAux_chars s [] w hw ch hch with h | h
          · simp at h
          · exact Or.inr (List.mem_cons.2 (Or.inr h))
    · rcases pyWordsAux_chars s (c :: cur) w hw ch hch with h | h
      · rcases List.mem_cons.1 h with rfl | h
        · exact Or.inr (List.mem_cons.2 (Or.inl rfl))
        · exact Or.inl h
      · exact Or.inr (List.mem_cons.2 (Or.inr h))

theorem joinSpace_cons_cons (w v : Str) (rest : List Str) :
    joinSpace (w :: v :: rest) = w ++ ' ' :: joinSpace (v :: rest) := rfl

theorem mem_joinSpace : ∀ (l : List Str) (ch : Char), ch ∈ joinSpace l →
    (∃ w ∈ l, ch ∈ w) ∨ ch = ' '
  | [], ch, h => by simp [joinSpace] at h
  | [w], ch, h => Or.inl ⟨w, List.mem_singleton.2 rfl, h⟩
  | w :: v :: rest, ch, h => by
    rw [joinSpace_cons_cons] at h
    rcases List.mem_append.1 h with h | h
    · exact Or.inl ⟨w, List.mem_cons.2 (Or.inl rfl), h⟩
    · rcases List.mem_cons.1 h with rfl | h
      · exact Or.inr rfl
      · rcases mem_joinSpace (v :: rest) ch h with ⟨w2, hw2, hch⟩ | h
        · exact Or.inl ⟨w2, List.mem_cons.2 (Or.inr hw2), hch⟩
        · exact Or.inr h

theorem joinSpace_ne_nil : ∀ (l : List Str), (∀ w ∈ l, w ≠ []) → l ≠ [] → joinSpace l ≠ []
  | [], _, h => absurd rfl h
  | [w], hw, _ => hw w (List.mem_singleton.2 rfl)
  | w :: v :: rest, _, _ => by
    rw [joinSpace_cons_cons]
    simp

theorem joinSpace_head? : ∀ (w : Str) (l : List Str), w ≠ [] →
    (joinSpace (w :: l)).head? = w.head?
  | w, [], _ => rfl
  | w, v :: rest, hne => by
    rw [joinSpace_cons_cons]
    cases w with
    | nil => exact absurd rfl hne
    | cons a t => rfl

theorem joinSpace_getLast? : ∀ (l : List Str), (∀ w ∈ l, w ≠ []) → l ≠ [] →
    ∃ wl ∈ l, (joinSpace l).getLast? = wl.getLast?
  | [], _, h => absurd rfl h
  | [w], _, _ => ⟨w, List.mem_singleton.2 rfl, rfl⟩
  | w :: v :: rest, hw, _ => by
    obtain ⟨wl, hmem, heq⟩ := joinSpace_getLast? (v :: rest)
      (fun x hx => hw x (List.mem_cons.2 (Or.inr hx))) (by simp)
    refine ⟨wl, List.mem_cons.2 (Or.inr hmem), ?_⟩
    have hjs : joinSpace (v :: rest) ≠ [] :=
      joinSpace_ne_nil _ (fun x hx => hw x (List.mem_cons.2 (Or.inr hx))) (by simp)
    obtain ⟨c, hc⟩ : ∃ c, (joinSpace (v :: rest)).getLast? = some c := by
      cases hgl : (joinSpace (v :: rest)).getLast? with
      | none => exact absurd (List.getLast?_eq_none_iff.1 hgl) hjs
      | some c => exact ⟨c, rfl⟩
    obtain ⟨ys, hys⟩ := List.getLast?_eq_some_iff.1 hc
    rw [joinSpace_cons_cons, hys,
      show w ++ ' ' :: (ys ++ [c]) = (w ++ (' ' :: ys)) ++ [c] from by
        rw [List.append_assoc]
        rfl,
      List.getLast?_concat, ← heq, hc]

theorem pyStrip_id {s : Str} (h1 : ∀ c, s.head? = some c → pyIsSpace c = false)
    (h2 : ∀ c, s.getLast? = some c → pyIsSpace c = false) : pyStrip s = s := by
  have hd : s.dropWhile pyIsSpace = s := by
    cases s with
    | nil => rfl
    | cons a t =>
      have hna : ¬ (pyIsSpace a = true) := by simp [h1 a rfl]
      rw [List.dropWhile_cons, if_neg hna]
  have hd2 : (s.reverse).dropWhile pyIsSpace = s.reverse := by
    cases hs : s.reverse with
    | nil => rfl
    | cons a t =>
      have ha : s.getLast? = some a := by
        rw [← List.head?_reverse, hs]
        rfl
      have hna : ¬ (pyIsSpace a = true) := by simp [h2 a ha]
      rw [List.dropWhile_cons, if_neg hna]
  simp only [pyStrip, hd, hd2, List.reverse_reverse]

theorem pyWordsAux_all_nonspace : ∀ (s cur : Str), (∀ ch ∈ s, pyIsSpace ch = false) →
    pyWordsAux cur s = if (cur.reverse ++ s).isEmpty then [] else [cur.reverse ++ s]
  | [], cur, _ => by
    simp only [pyWordsAux, List.append_nil]
    cases cur with
    | nil => rfl
    | cons a t => simp [List.isEmpty_iff]
  | c :: s, cur, hns => by
    simp only [pyWordsAux]
    have hc : pyIsSpace c = false := hns c (List.mem_cons.2 (Or.inl rfl))
    rw [if_neg (by simp [hc])]
    rw [pyWordsAux_all_nonspace s (c :: cur) (fun ch hch => hns ch (List.mem_cons.2 (Or.inr hch)))]
    rw [List.reverse_cons, List.append_assoc]
    rfl

theorem pyWordsAux_word_space : ∀ (w cur t : Str), (∀ ch ∈ w, pyIsSpace ch = false) →
    cur.reverse ++ w ≠ [] →
    pyWordsAux cur (w ++ ' ' :: t) = (cur.reverse ++ w) :: pyWordsAux [] t
  | [], cur, t, _, hne => by
    show pyWordsAux cur (' ' :: t) = (cur.reverse ++ []) :: pyWordsAux [] t
    rw [List.append_nil] at hne ⊢
    simp only [pyWordsAux]
    rw [if_pos (by decide), if_neg]
    intro hc
    apply hne
    rw [List.isEmpty_iff] at hc
    simp [hc]
  | c :: w, cur, t, hns, _ => by
    show pyWordsAux cur (c :: (w ++ ' ' :: t)) = _
    have hc : pyIsSpace c = false := hns c (List.mem_cons.2 (Or.inl rfl))
    simp only [pyWordsAux]
    rw [if_neg (by simp [hc])]
    rw [pyWordsAux_word_space w (c :: cur) t
      (fun ch hch => hns ch (List.mem_cons.2 (Or.inr hch))) (by simp)]
    rw [List.reverse_cons, List.append_assoc]
    rfl

theorem pyWords_join_dot_length : ∀ (l : List Str),
    (∀ w ∈ l, w ≠ [] ∧ ∀ ch ∈ w, pyIsSpace ch = false) → l ≠ [] →
    (pyWords (joinSpace l ++ ['.'])).length = l.length
  | [], _, h => absurd rfl h
  | [w], hg, _ => by
    obtain ⟨hne, hns⟩ := hg w (List.mem_singleton.2 rfl)
    show (pyWordsAux [] (w ++ ['.'])).length = 1
    rw [pyWordsAux_all_nonspace (w ++ ['.']) []]
    · rw [if_neg (by simp)]
      rfl
    · intro ch hch
      rcases List.mem_append.1 hch with h | h
      · exact hns ch h
      · have hch2 := List.mem_singleton.1 h
        subst hch2
        decide
  | w :: v :: rest, hg, _ => by
    obtain ⟨hne, hns⟩ := hg w (List.mem_cons.2 (Or.inl rfl))
    show (pyWordsAux [] ((joinSpace (w :: v :: rest)) ++ ['.'])).length = _
    rw [joinSpace_cons_cons, List.append_assoc]
    rw [show w ++ ((' ' :: joinSpace (v :: rest)) ++ ['.']) =
        w ++ ' ' :: (joinSpace (v :: rest) ++ ['.']) from rfl]
    rw [pyWordsAux_word_space w [] (joinSpace (v :: rest) ++ ['.']) hns (by simp [hne])]
    have ih := pyWords_join_dot_length (v :: rest)
      (fun x hx => hg x (List.mem_cons.2 (Or.inr hx))) (by simp)
    simp only [pyWords] at ih
    simp only [List.length_cons, List.nil_append, ih]

/-- Properties of the summary post-processing: clipping the word list to 20 and
appending the final period yields at most 20 whitespace-separated words, a
trailing period whenever non-empty, and no interior period when the input
sentence is period-free. -/
theorem postprocess_props (short : Str) (hnd : ∀ ch ∈ short, ch ≠ '.')
    (short2 short3 : Str)
    (h2 : short2 = pyStrip (joinSpace ((pyWords short).take 20)))
    (h3 : short3 = if short2 ≠ [] && !(endsWithDot short2) then short2 ++ ['.'] else short2) :
    (pyWords short3).length ≤ 20 ∧ (short3 ≠ [] → endsWithDot short3 = true) ∧
    ∀ ch ∈ short3.dropLast, ch ≠ '.' := by
  subst h3
  subst h2
  have hgood : ∀ w ∈ (pyWords short).take 20, w ≠ [] ∧ ∀ ch ∈ w, pyIsSpace ch = false :=
    fun w hw => pyWordsAux_good short [] (by simp) w (List.mem_of_mem_take hw)
  by_cases hl : (pyWords short).take 20 = []
  · rw [hl]
    refine ⟨by decide, by decide, by decide⟩
  · have hjoin_ne : joinSpace ((pyWords short).take 20) ≠ [] :=
      joinSpace_ne_nil _ (fun w hw => (hgood w hw).1) hl
    have hhead : ∀ c, (joinSpace ((pyWords short).take 20)).head? = some c →
        pyIsSpace c = false := by
      intro c hc
      cases hl2 : (pyWords short).take 20 with
      | nil => exact absurd hl2 hl
      | cons w l2 =>
        rw [hl2] at hc
        obtain ⟨hwne, hwns⟩ := hgood w (by rw [hl2]; exact List.mem_cons.2 (Or.inl rfl))
        rw [joinSpace_head? w l2 hwne] at hc
        exact hwns c (List.mem_of_mem_head? (by rw [hc]; rfl))
    have hlast : ∀ c, (joinSpace ((pyWords short).take 20)).getLast? = some c →
        pyIsSpace c = false := by
      intro c hc
      obtain ⟨wl, hwl, heq⟩ := joinSpace_getLast? _ (fun w hw => (hgood w hw).1) hl
      rw [heq] at hc
      obtain ⟨hwne, hwns⟩ := hgood wl hwl
      obtain ⟨ys, hys⟩ := List.getLast?_eq_some_iff.1 hc
      exact hwns c (by
        rw [hys]
        exact List.mem_append.2 (Or.inr (List.mem_singleton.2 rfl)))
    have hstrip : pyStrip (joinSpace ((pyWords short).take 20)) =
        joinSpace ((pyWords short).take 20) := pyStrip_id hhead hlast
    rw [hstrip]
    have hndj : ∀ ch ∈ joinSpace ((pyWords short).take 20), ch ≠ '.' := by
      intro ch hch
      rcases mem_joinSpace _ ch hch with ⟨w, hw, hchw⟩ | rfl
      · rcases pyWordsAux_chars short [] w (List.mem_of_mem_take hw) ch hchw with h | h
        · simp at h
        · exact hnd ch h
      · decide
    have hend : endsWithDot (joinSpace ((pyWords short).take 20)) = false := by
      cases he : endsWithDot (joinSpace ((pyWords short).take 20)) with
      | false => rfl
      | true =>
        simp only [endsWithDot, decide_eq_true_eq] at he
        obtain ⟨ys, hys⟩ := List.getLast?_eq_some_iff.1 he
        refine absurd rfl (hndj '.' ?_)
        rw [hys]
        exact List.mem_append.2 (Or.inr (List.mem_singleton.2 rfl))
    rw [if_pos (by simp [hjoin_ne, hend])]
    refine ⟨?_, ?_, ?_⟩
    · cases hl2 : (pyWords short).take 20 with
      | nil => exact absurd hl2 hl
      | cons w l2 =>
        have hgood2 : ∀ x ∈ w :: l2, x ≠ [] ∧ ∀ ch ∈ x, pyIsSpace ch = false := by
          rw [← hl2]
          exact hgood
        rw [pyWords_join_dot_length (w :: l2) hgood2 (by simp)]
        rw [← hl2, List.length_take]
        exact Nat.min_le_left _ _
    · intro _
      simp [endsWithDot, List.getLast?_concat]
    · rw [List.dropLast_concat]
      exact fun ch hch => hndj ch hch

/-- The success path of `summarize_description`: on a cache miss with a
successful model call, the returned and cached text is the clipped,
period-terminated first sentence of the stripped response. -/
theorem summarize_success {co : Collab} {cache : List (Str × Str)} {desc id_ resp : Str}
    (hmiss : lookupS cache id_ = none)
    (hchat : co.ollamaChat (promptText desc) = some resp) :
    ∃ short3,
      summarize_description co cache desc id_ =
        ⟨short3, setS cache id_ short3, [Event.summarizeCall (promptText desc)]⟩ ∧
      short3 = (if pyStrip (joinSpace ((pyWords (pyStrip ((pyStrip resp).takeWhile
            (fun c => c ≠ '.')))).take 20)) ≠ [] &&
          !(endsWithDot (pyStrip (joinSpace ((pyWords (pyStrip ((pyStrip resp).takeWhile
            (fun c => c ≠ '.')))).take 20)))) then
          pyStrip (joinSpace ((pyWords (pyStrip ((pyStrip resp).takeWhile
            (fun c => c ≠ '.')))).take 20)) ++ ['.']
        else
          pyStrip (joinSpace ((pyWords (pyStrip ((pyStrip resp).takeWhile
            (fun c => c ≠ '.')))).take 20))) := by
  refine ⟨_, ?_, rfl⟩
  simp only [summarize_description, hmiss, hchat]

/-- C10: every summary stored by a successful summarization is cached under
the task id as returned, contains at most 20 whitespace-separated words, ends
with a period when non-empty, and contains no period before its final
character — it is derived from the first period-delimited sentence of the
model output. -/
theorem c10_summary_bounds (co : Collab) (cache : List (Str × Str)) (desc id_ resp : Str)
    (hmiss : lookupS cache id_ = none)
    (hchat : co.ollamaChat (promptText desc) = some resp) :
    lookupS (summarize_description co cache desc id_).cache id_ =
      some (summarize_description co cache desc id_).text ∧
    (pyWords (summarize_description co cache desc id_).text).length ≤ 20 ∧
    ((summarize_description co cache desc id_).text ≠ [] →
      endsWithDot (summarize_description co cache desc id_).text = true) ∧
    ∀ ch ∈ (summarize_description co cache desc id_).text.dropLast, ch ≠ '.' := by
  obtain ⟨s3, heq, hs3⟩ := summarize_success hmiss hchat
  have hnd : ∀ ch ∈ pyStrip ((pyStrip resp).takeWhile (fun c => c ≠ '.')), ch ≠ '.' := by
    intro ch hch
    have h2 := List.mem_takeWhile_imp (mem_pyStrip hch)
    simpa using h2
  have hprops := postprocess_props (pyStrip ((pyStrip resp).takeWhile (fun c => c ≠ '.')))
    hnd (pyStrip (joinSpace ((pyWords (pyStrip ((pyStrip resp).takeWhile
      (fun c => c ≠ '.')))).take 20))) s3 rfl hs3
  rw [heq]
  exact ⟨lookupS_setS_self cache id_ s3, hprops.1, hprops.2.1, hprops.2.2⟩

/-- Witness for C10 at concrete data: a successful summarization of a
two-sentence model response stores exactly the first sentence with its period,
and the stored text is the returned text, within the word bound. -/
theorem c10_witness :
    (summarize_description exCollabOk [] (("Essay on AI ethics").data) (("101").data)).text =
      ("A short answer.").data ∧
    lookupS (summarize_description exCollabOk [] (("Essay on AI ethics").data)
        (("101").data)).cache (("101").data) =
      some (summarize_description exCollabOk [] (("Essay on AI ethics").data)
        (("101").data)).text ∧
    (pyWords (summarize_description exCollabOk [] (("Essay on AI ethics").data)
        (("101").data)).text).length ≤ 20 :=
  ⟨by decide,
   (c10_summary_bounds exCollabOk [] (("Essay on AI ethics").data) (("101").data)
     (("A short answer. More text.").data) (by decide) rfl).1,
   (c10_summary_bounds exCollabOk [] (("Essay on AI ethics").data) (("101").data)
     (("A short answer. More text.").data) (by decide) rfl).2.1⟩
